import Mathlib

/-!
DeNovoGear: the peeling driver and the mutation caller.

A shallow embedding of

* `RelationshipGraph::PeelForwards` and `RelationshipGraph::PeelBackwards`
  (`src/include/dng/relationship_graph.h`),
* `LogProbability::CreateMutationMatrices` (`src/include/dng/probability.h`),
* `container_subtract`, the constructor of `CallMutations` and
  `CallMutations::operator()` (`src/lib/call_mutations.cc`).

**Numbers**

A C++ `double` is modelled by an element of a linearly ordered field `α`
(with a floor, for the conversion to an integer).  The embedding is generic in
`α`: at `α = ℚ` every definition below evaluates, at `α = ℝ` the functions of
`<cmath>` can be the real `exp`, `log` and `sqrt`.  Arithmetic is exact: there
is no rounding, no infinity and no NaN, and `x / 0 = 0` where IEEE arithmetic
gives an infinity or a NaN.  `size_t` is `Nat`; where the source subtracts two
`size_t` the wrap-around modulo `2^64` is written out.

The one branch of the code that a special value decides, the test
`mup < min_prob_` of `operator()`, is embedded a second time with the special
values of a `double` (`Dbl`, `operatorIEEE`): there `log 0` is `-inf`,
`-inf - -inf` is a NaN and a comparison with a NaN is false.

**Containers**

`std::vector` and the Eigen arrays are lists; an Eigen matrix is the list of
its rows.  Reading `v[i]` is `List.getD` with the empty array, `0` or `""` as
the out-of-range value, writing `v[i] = x` is `List.set` (the source has
undefined behaviour out of range, the model reads the default and drops the
write).  Eigen requires equal sizes in an elementwise operation; the model
stops at the shorter operand (`List.zipWith`).

**What is outside the sources**

The peeling functions themselves, the methods of `peel::workspace_t`, the
functions that build the transition matrices, the label tables and the
functions of `<cmath>` are not part of the three source files.  They are the
fields of `Extern` and of `RelationshipGraph`, so every theorem holds for all
of them.

**Call log**

Every modelled function returns, next to its result, the list of the calls it
made (`Call`), in order.  The log is not read by the code; it lets the claims
about what is and is not invoked be stated.
-/

namespace dng

/-! ## Control flow -/

/-- Worker of `forRange`: `k` iterations remain, `i` is the loop index. -/
def forRange.go {σ : Type} (body : Nat → σ → σ) : Nat → Nat → σ → σ
  | 0, _, s => s
  | k + 1, i, s => forRange.go body k (i + 1) (body i s)

/-- The loop `for (size_t i = lo; i < hi; ++i) s = body(i, s);`. -/
def forRange {σ : Type} (lo hi : Nat) (body : Nat → σ → σ) (s : σ) : σ :=
  forRange.go body (hi - lo) lo s

/-- The loop `for (size_t i = n; i > 0; --i) s = body(i - 1, s);`. -/
def forDown {σ : Type} (body : Nat → σ → σ) : Nat → σ → σ
  | 0, s => s
  | i + 1, s => forDown body i (body i s)

/-- Method `std::vector::resize(n)`: the first `n` elements are kept, new elements are
value-initialised (`d`). -/
def resize {β : Type} (v : List β) (n : Nat) (d : β) : List β :=
  v.take n ++ List.replicate (n - v.length) d

/-- Subtraction of two `size_t`. -/
def size_sub (a b : Nat) : Nat := (a + 2 ^ 64 - b % 2 ^ 64) % 2 ^ 64

/-! ## Eigen arrays and matrices -/

/-- Type `GenotypeArray`: one number per genotype. -/
abbrev GenotypeArray (α : Type) := List α

/-- Type `TransitionMatrix`, as the list of its rows. -/
abbrev TransitionMatrix (α : Type) := List (List α)

/-- Type `TransitionMatrixVector` (`TransitionVector`): one matrix per node. -/
abbrev TransitionMatrixVector (α : Type) := List (TransitionMatrix α)

/-- Type `peel::family_members_t`: the node indices of one family. -/
abbrev family_members_t := List Nat

section eigen
variable {α : Type} [LinearOrderedField α]

/-- Elementwise product of two arrays, `a * b`. -/
def arrayMul (a b : GenotypeArray α) : GenotypeArray α := List.zipWith (fun x y => x * y) a b

/-- Sum of the coefficients, `a.sum()`. -/
def arraySum (a : GenotypeArray α) : α := a.sum

/-- Division by a scalar, `a /= s`. -/
def arrayDiv (a : GenotypeArray α) (s : α) : GenotypeArray α := a.map (fun x => x / s)

/-- Matrix times column vector, `M * v.matrix()`. -/
def matVec (M : TransitionMatrix α) (v : GenotypeArray α) : GenotypeArray α :=
  M.map (fun row => arraySum (arrayMul row v))

/-- Outer product `u.matrix() * v.matrix().transpose()`. -/
def outer (u v : GenotypeArray α) : TransitionMatrix α :=
  u.map (fun x => v.map (fun y => x * y))

/-- Elementwise product of two matrices, `A.array() * B.array()`. -/
def cwiseMul (A B : TransitionMatrix α) : TransitionMatrix α :=
  List.zipWith (fun r s => List.zipWith (fun x y => x * y) r s) A B

/-- Difference of two matrices, `A - B` (what `std::minus<TransitionMatrix>` calls). -/
def matSub (A B : TransitionMatrix α) : TransitionMatrix α :=
  List.zipWith (fun r s => List.zipWith (fun x y => x - y) r s) A B

/-- Sum of all coefficients of a matrix, `A.sum()`. -/
def matSum (A : TransitionMatrix α) : α := (A.map List.sum).sum

/-- Coefficient `A(i, j)`. -/
def coeff (A : TransitionMatrix α) (i j : Nat) : α := (A.getD i []).getD j 0

/-- The coefficients of a matrix with their positions `(value, row, col)`, in
the order Eigen visits a column-major matrix: column by column. -/
def entries (A : TransitionMatrix α) : List (α × Nat × Nat) :=
  (List.range (A.getD 0 []).length).flatMap
    (fun j => (List.range A.length).map (fun i => (coeff A i j, i, j)))

/-- One step of Eigen's `max_coeff_visitor`: a strictly larger value replaces
the current one. -/
def maxStep (acc e : α × Nat × Nat) : α × Nat × Nat := if e.1 > acc.1 then e else acc

/-- Eigen's `A.maxCoeff(&row, &col)`: the largest coefficient and the first position
(in visiting order) that holds it.  Eigen requires a matrix with at least one
coefficient; on an empty one the model answers `(0, 0, 0)`. -/
def maxCoeff (A : TransitionMatrix α) : α × Nat × Nat :=
  match entries A with
  | [] => (0, 0, 0)
  | e :: es => es.foldl maxStep e

end eigen

/-! ## The workspace and the graph -/

/-- Type `peel::workspace_t`: the fields the three source files read or write. -/
structure workspace_t (α : Type) where
  upper : List (GenotypeArray α)
  lower : List (GenotypeArray α)
  super : List (GenotypeArray α)
  temp_buffer : TransitionMatrix α
  forward_result : α
  dirty_lower : Bool
  num_nodes : Nat
  founder_nodes : Nat × Nat
  germline_nodes : Nat × Nat
  somatic_nodes : Nat × Nat
  library_nodes : Nat × Nat

/-- Type `peel::function_t`: a compiled peeling operation
`(workspace, family members, matrices)`, acting on the workspace. -/
abbrev function_t (α : Type) :=
  workspace_t α → family_members_t → TransitionMatrixVector α → workspace_t α

/-- Enumeration `RelationshipGraph::TransitionType`.  The header declares the first four;
`call_mutations.cc` compares with `TransitionType::Trio`. -/
inductive TransitionType where
  | Founder
  | Germline
  | Somatic
  | Library
  | Trio
  deriving DecidableEq, Repr

/-- Type `RelationshipGraph::transition_t`. -/
structure transition_t (α : Type) where
  type : TransitionType
  parent1 : Nat
  parent2 : Nat
  length1 : α
  length2 : α
  sex : Nat
  ploidy : Int

/-- Class `RelationshipGraph`: the members `PeelForwards`, `PeelBackwards`
and `CallMutations` use. -/
structure RelationshipGraph (α : Type) where
  num_nodes_ : Nat
  first_founder_ : Nat
  first_nonfounder_ : Nat
  first_somatic_ : Nat
  first_library_ : Nat
  roots_ : List Nat
  labels_ : List String
  transitions_ : List (transition_t α)
  peeling_functions_ : List (function_t α)
  peeling_reverse_functions_ : List (function_t α)
  family_members_ : List family_members_t

/-- Type `LogProbability::params_t`; `G` is `Genotyper::params_t`. -/
structure params_t (α G : Type) where
  theta : α
  nuc_freq : List α
  ref_weight : α
  params_a : G
  params_b : G

/-- Type `LogProbability::matrices_t`: the full matrices and one vector per colour. -/
structure matrices_t (α : Type) where
  full : TransitionMatrixVector α
  subsets : List (TransitionMatrixVector α)

/-- What the three source files use and do not define.  `D` is
`pileup::RawDepths`. -/
structure Extern (α D : Type) where
  /-- Function `log` of `<cmath>`. -/
  log : α → α
  /-- Function `sqrt` of `<cmath>`. -/
  sqrt : α → α
  /-- Function `std::expm1`. -/
  expm1 : α → α
  /-- Function `log10` of `<cmath>`. -/
  log10 : α → α
  /-- The constant `M_LN10`. -/
  M_LN10 : α
  /-- Method `workspace_t::CleanupFast()`. -/
  CleanupFast : workspace_t α → workspace_t α
  /-- Method `workspace_t::SetGenotypeLikelihoods(genotyper_, depths, ref_index)`:
  the scale it returns and the workspace it leaves. -/
  SetGenotypeLikelihoods : workspace_t α → D → Nat → α × workspace_t α
  /-- Method `workspace_t::SetFounders(diploid, haploid)`. -/
  SetFounders : workspace_t α → GenotypeArray α → GenotypeArray α → workspace_t α
  /-- Function `create_mutation_matrices(graph, nuc_freq, mutype)`. -/
  create_mutation_matrices : RelationshipGraph α → List α → Int → TransitionMatrixVector α
  /-- Function `create_mutation_matrices_subset(full, color)`. -/
  create_mutation_matrices_subset : TransitionMatrixVector α → Nat → TransitionMatrixVector α
  /-- Constant `pileup::AlleleDepths::type_info_table_length`. -/
  type_info_table_length : Nat
  /-- Constant `MUTATIONS_ALL`. -/
  MUTATIONS_ALL : Int
  /-- Constant `MUTATIONS_MEAN`. -/
  MUTATIONS_MEAN : Int
  /-- Table `dng::meiotic_diploid_mutation_labels`. -/
  meiotic_diploid_mutation_labels : List (List String)
  /-- Table `dng::mitotic_diploid_mutation_labels`. -/
  mitotic_diploid_mutation_labels : List (List String)

/-- The calls the log records. -/
inductive Call where
  | SetGenotypeLikelihoods
  | SetFounders
  | PeelForwards
  | PeelBackwards
  | CleanupFast
  | peeling_function (i : Nat)
  | peeling_reverse_function (i : Nat)
  deriving DecidableEq, Repr

/-- What `PeelForwards` and `PeelBackwards` leave: the returned log-likelihood,
the workspace, the calls made. -/
structure PeelResult (α : Type) where
  ret : α
  work : workspace_t α
  calls : List Call

section peeling
variable {α D : Type} [LinearOrderedField α]

/-- The root sum `(work.lower[r] * work.upper[r]).sum()`. -/
def rootSum (work : workspace_t α) (r : Nat) : α :=
  arraySum (arrayMul (work.lower.getD r []) (work.upper.getD r []))

/-- The body of the peeling loop of `PeelForwards`:
`(*peeling_functions_[i])(work, family_members_[i], mat)`. -/
def forwardStep (g : RelationshipGraph α) (mat : TransitionMatrixVector α) (i : Nat)
    (s : List Call × workspace_t α) : List Call × workspace_t α :=
  (s.1 ++ [Call.peeling_function i],
   (g.peeling_functions_.getD i (fun w _ _ => w)) s.2 (g.family_members_.getD i []) mat)

/-- The body of the root loop of `PeelForwards`: `ret += log(rootSum)`. -/
def forwardRoot (E : Extern α D) (work : workspace_t α) (ret : α) (r : Nat) : α :=
  ret + E.log (rootSum work r)

/-- Method `RelationshipGraph::PeelForwards(work, mat)`. -/
def PeelForwards (E : Extern α D) (g : RelationshipGraph α) (work : workspace_t α)
    (mat : TransitionMatrixVector α) : PeelResult α :=
  let s0 : List Call × workspace_t α :=
    if work.dirty_lower then ([Call.PeelForwards, Call.CleanupFast], E.CleanupFast work)
    else ([Call.PeelForwards], work)
  let s1 := forRange 0 g.peeling_functions_.length (forwardStep g mat) s0
  let ret := g.roots_.foldl (forwardRoot E s1.2) 0
  { ret := ret, work := { s1.2 with forward_result := ret }, calls := s1.1 }

/-- The body of the root loop of `PeelBackwards`: the root sum is logged and
added, then `lower[r]` and `upper[r]` are divided by its square root. -/
def backwardRoot (E : Extern α D) (s : α × workspace_t α) (r : Nat) : α × workspace_t α :=
  let sum := rootSum s.2 r
  let ret := s.1 + E.log sum
  let sum := E.sqrt sum
  let work := { s.2 with lower := s.2.lower.set r (arrayDiv (s.2.lower.getD r []) sum) }
  let work := { work with upper := work.upper.set r (arrayDiv (work.upper.getD r []) sum) }
  (ret, work)

/-- The body of the reverse loop of `PeelBackwards`:
`(*peeling_reverse_functions_[i - 1])(work, family_members_[i - 1], mat)`;
`j` is `i - 1`. -/
def backwardStep (g : RelationshipGraph α) (mat : TransitionMatrixVector α) (j : Nat)
    (s : List Call × workspace_t α) : List Call × workspace_t α :=
  (s.1 ++ [Call.peeling_reverse_function j],
   (g.peeling_reverse_functions_.getD j (fun w _ _ => w)) s.2 (g.family_members_.getD j []) mat)

/-- Method `RelationshipGraph::PeelBackwards(work, mat)`. -/
def PeelBackwards (E : Extern α D) (g : RelationshipGraph α) (work : workspace_t α)
    (mat : TransitionMatrixVector α) : PeelResult α :=
  let s0 := g.roots_.foldl (backwardRoot E) (0, work)
  let s1 := forDown (backwardStep g mat) g.peeling_reverse_functions_.length
    ([Call.PeelBackwards], s0.2)
  { ret := s0.1, work := { s1.2 with dirty_lower := true }, calls := s1.1 }

end peeling

/-! ## LogProbability and CallMutations -/

/-- Class `LogProbability`: its data members (the genotyper is part of
`Extern.SetGenotypeLikelihoods`). -/
structure LogProbability (α G : Type) where
  graph_ : RelationshipGraph α
  params_ : params_t α G
  work_ : workspace_t α
  transition_matrices_ : matrices_t α
  prob_monomorphic_ : List α
  diploid_prior_ : List (GenotypeArray α)
  haploid_prior_ : List (GenotypeArray α)

/-- Class `CallMutations`: `LogProbability` and the members it adds. -/
structure CallMutations (α G : Type) extends LogProbability α G where
  min_prob_ : α
  zero_mutation_matrices_ : matrices_t α
  one_mutation_matrices_ : matrices_t α
  mean_mutation_matrices_ : matrices_t α
  oneplus_mutation_matrices_ : matrices_t α

/-- Output record `CallMutations::stats_t`: the fields `operator()` writes. -/
structure stats_t (α : Type) where
  mup : α
  lld : α
  genotype_likelihoods : List (GenotypeArray α)
  posterior_probabilities : List (GenotypeArray α)
  mux : α
  node_mup : List α
  node_mu1p : List α
  mu1p : α
  dnq : Int
  dnl : String
  dnt : String

/-- What `CallMutations::operator()` leaves: the returned boolean, the
workspace, the record behind `stats` (`none` for a null pointer), the calls
made. -/
structure CallResult (α : Type) where
  ret : Bool
  work : workspace_t α
  stats : Option (stats_t α)
  calls : List Call

/-- What the second half of `CallMutations::operator()` leaves. -/
structure PopulateResult (α : Type) where
  work : workspace_t α
  stats : stats_t α
  calls : List Call

/-- The local variables of the scoring loop of `CallMutations::operator()`
together with what the loop writes: `work_.temp_buffer` and
`stats->node_mu1p`. -/
structure ScoreState (α : Type) where
  temp_buffer : TransitionMatrix α
  node_mu1p : List α
  total : α
  max_coeff : α
  dn_row : Nat
  dn_col : Nat
  dn_location : Nat

section call_mutations
variable {α D G : Type} [LinearOrderedField α]

/-- The helper `container_subtract(a, b)`: `boost::transform` walks both
ranges together, stops at the end of the shorter one and appends
`minus(a[k], b[k])` to an empty container.  `minus` is
`std::minus<V::value_type>`. -/
def container_subtract {β : Type} (minus : β → β → β) (a b : List β) : List β :=
  List.zipWith minus a b

/-- Method `LogProbability::CreateMutationMatrices(mutype)`. -/
def LogProbability.CreateMutationMatrices (E : Extern α D) (self : LogProbability α G)
    (mutype : Int) : matrices_t α :=
  let full := E.create_mutation_matrices self.graph_ self.params_.nuc_freq mutype
  { full := full
    subsets := forRange 0 E.type_info_table_length
      (fun color subsets => subsets.set color (E.create_mutation_matrices_subset full color))
      (List.replicate E.type_info_table_length []) }

/-- The constructor `CallMutations::CallMutations(min_prob, graph, params)`;
`base` is the object `LogProbability(graph, params)` has built. -/
def CallMutations.ctor (E : Extern α D) (min_prob : α) (base : LogProbability α G) :
    CallMutations α G :=
  let zero_mutation_matrices_ := base.CreateMutationMatrices E 0
  let one_mutation_matrices_ := base.CreateMutationMatrices E 1
  let mean_mutation_matrices_ := base.CreateMutationMatrices E E.MUTATIONS_MEAN
  { toLogProbability := base
    min_prob_ := min_prob
    zero_mutation_matrices_ := zero_mutation_matrices_
    one_mutation_matrices_ := one_mutation_matrices_
    mean_mutation_matrices_ := mean_mutation_matrices_
    oneplus_mutation_matrices_ :=
      { full := container_subtract matSub base.transition_matrices_.full
          zero_mutation_matrices_.full
        subsets := forRange 0 E.type_info_table_length
          (fun j subsets => subsets.set j
            (container_subtract matSub (base.transition_matrices_.subsets.getD j [])
              (zero_mutation_matrices_.subsets.getD j [])))
          (List.replicate E.type_info_table_length []) } }

end call_mutations

section call_operator
variable {α D G : Type} [LinearOrderedField α] [FloorRing α]

/-- Modelled from the spec: `dng::utility::lphred<int32_t>(p, m)` is declared in
`dng/utility.h`, which is not among the sources.  The spec has the confidence
score be the Phred scale of `p` (that is `-10 * log10(p)`), an integer, clamped
to `[0, m]`. -/
def lphred (E : Extern α D) (p : α) (m : Int) : Int :=
  max 0 (min m (round (-10 * E.log10 p)))

/-- The block "Genotype Likelihoods for Libraries": the body of its loop. -/
def genotypeLikelihoodStep (E : Extern α D) (work : workspace_t α) (u : Nat)
    (gl : List (GenotypeArray α)) : List (GenotypeArray α) :=
  let pos := work.library_nodes.1 + u
  gl.set u (arrayDiv ((work.lower.getD pos []).map E.log) E.M_LN10)

/-- The block "Posterior Probabilities for all nodes": the body of its loop.
The product `upper[i] * lower[i]` is stored, then divided by its own sum. -/
def posteriorStep (work : workspace_t α) (i : Nat)
    (pp : List (GenotypeArray α)) : List (GenotypeArray α) :=
  let pp := pp.set i (arrayMul (work.upper.getD i []) (work.lower.getD i []))
  pp.set i (arrayDiv (pp.getD i []) (arraySum (pp.getD i [])))

/-- The sum `(work.super[i] * (mat[i] * work.lower[i].matrix()).array()).sum()`
of the blocks "Expected Number of Mutations" and "Probability of at least 1
mutation at a node". -/
def nodeSum (work : workspace_t α) (mat : TransitionMatrixVector α) (i : Nat) : α :=
  arraySum (arrayMul (work.super.getD i []) (matVec (mat.getD i []) (work.lower.getD i [])))

/-- The score matrix of node `i`:
`(super[i].matrix() * lower[i].matrix().transpose()).array() * one[i].array()`. -/
def scoreMatrix (work : workspace_t α) (one : TransitionMatrixVector α) (i : Nat) :
    TransitionMatrix α :=
  cwiseMul (outer (work.super.getD i []) (work.lower.getD i [])) (one.getD i [])

/-- The body of the scoring loop (lines 128 to 143 of `call_mutations.cc`). -/
def scoreStep (work : workspace_t α) (one : TransitionMatrixVector α) (i : Nat)
    (s : ScoreState α) : ScoreState α :=
  let temp_buffer := scoreMatrix work one i
  let mc := maxCoeff temp_buffer
  let temp := mc.1
  let s : ScoreState α :=
    if temp > s.max_coeff then
      { s with max_coeff := temp, dn_row := mc.2.1, dn_col := mc.2.2, dn_location := i }
    else s
  let temp := matSum temp_buffer
  { s with temp_buffer := temp_buffer, node_mu1p := s.node_mu1p.set i temp,
           total := s.total + temp }

/-- The state before the scoring loop: `total = 0.0`, `max_coeff = -1.0`, the
three positions `0`, `node_mu1p` resized and zeroed on the founders. -/
def scoreInit (work : workspace_t α) (node_mu1p : List α) : ScoreState α :=
  { temp_buffer := work.temp_buffer
    node_mu1p := forRange work.founder_nodes.1 work.founder_nodes.2
      (fun i v => v.set i 0) (resize node_mu1p work.num_nodes 0)
    total := 0
    max_coeff := -1
    dn_row := 0
    dn_col := 0
    dn_location := 0 }

/-- The scoring loop over the non-founder nodes, from its initial state. -/
def scoreLoop (work : workspace_t α) (one : TransitionMatrixVector α)
    (node_mu1p : List α) : ScoreState α :=
  forRange work.founder_nodes.2 work.num_nodes (scoreStep work one) (scoreInit work node_mu1p)

/-- The second half of `CallMutations::operator()` (from `stats->mup = mup` to
the final `return true`), run when `mup >= min_prob_` and `stats` is not null. -/
def CallMutations.populate (E : Extern α D) (self : CallMutations α G) (scale denominator mup : α)
    (work : workspace_t α) (stats : stats_t α) : PopulateResult α :=
  let lld := (denominator + scale) / E.M_LN10
  let back := PeelBackwards E self.graph_ work self.transition_matrices_.full
  let work := back.work
  -- Genotype Likelihoods for Libraries
  let num_libraries := size_sub work.library_nodes.2 work.library_nodes.1
  let genotype_likelihoods := forRange 0 num_libraries (genotypeLikelihoodStep E work)
    (resize stats.genotype_likelihoods num_libraries [])
  -- Posterior Probabilities for all nodes
  let posterior_probabilities := forRange 0 work.num_nodes (posteriorStep work)
    (resize stats.posterior_probabilities work.num_nodes [])
  -- Expected Number of Mutations
  let mux := forRange work.founder_nodes.2 work.num_nodes
    (fun i mux => mux + nodeSum work self.mean_mutation_matrices_.full i) 0
  -- Probability of at least 1 mutation at a node
  let node_mup := resize stats.node_mup work.num_nodes 0
  let node_mup := forRange work.founder_nodes.1 work.founder_nodes.2
    (fun i v => v.set i 0) node_mup
  let node_mup := forRange work.founder_nodes.2 work.num_nodes
    (fun i v =>
      let v := v.set i (nodeSum work self.oneplus_mutation_matrices_.full i)
      v.set i (v.getD i 0 / mup)) node_mup
  -- Probability of Exactly One Mutation
  let fwd0 := PeelForwards E self.graph_ work self.zero_mutation_matrices_.full
  let back0 := PeelBackwards E self.graph_ fwd0.work self.zero_mutation_matrices_.full
  let work := back0.work
  let sc := scoreLoop work self.one_mutation_matrices_.full stats.node_mu1p
  let work := { work with temp_buffer := sc.temp_buffer }
  let node_mu1p := forRange work.founder_nodes.2 work.num_nodes
    (fun i v => v.set i (v.getD i 0 / sc.total)) sc.node_mu1p
  let mu1p := sc.total * (1 - mup)
  let dnq := lphred E (1 - sc.max_coeff / sc.total) 255
  let dnl := self.graph_.labels_.getD sc.dn_location ""
  let dnt :=
    if (self.graph_.transitions_.map (fun t => t.type)).getD sc.dn_location TransitionType.Founder
        = TransitionType.Trio then
      (E.meiotic_diploid_mutation_labels.getD sc.dn_row []).getD sc.dn_col ""
    else
      (E.mitotic_diploid_mutation_labels.getD sc.dn_row []).getD sc.dn_col ""
  { work := work
    stats :=
      { mup := mup, lld := lld, genotype_likelihoods := genotype_likelihoods,
        posterior_probabilities := posterior_probabilities, mux := mux,
        node_mup := node_mup, node_mu1p := node_mu1p, mu1p := mu1p,
        dnq := dnq, dnl := dnl, dnt := dnt }
    calls := back.calls ++ fwd0.calls ++ back0.calls }

/-- The method `CallMutations::operator()(depths, ref_index, stats)`; `stats`
is `none` for a null pointer and `some st` for a pointer to the record `st`.
The forward results and `mup` are numbers here; `operatorIEEE` below follows
the test `mup < min_prob_` when they are infinite or a NaN. -/
def CallMutations.operator (E : Extern α D) (self : CallMutations α G) (depths : D)
    (ref_index : Nat) (stats : Option (stats_t α)) : CallResult α :=
  -- Genotype Likelihoods
  let gl := E.SetGenotypeLikelihoods self.work_ depths ref_index
  let scale := gl.1
  -- Set the prior probability of the founders given the reference
  let work := E.SetFounders gl.2 (self.diploid_prior_.getD ref_index [])
    (self.haploid_prior_.getD ref_index [])
  -- Now peel numerator
  let num := PeelForwards E self.graph_ work self.zero_mutation_matrices_.full
  let numerator := num.ret
  -- Calculate log P(Data ; model)
  let den := PeelForwards E self.graph_ num.work self.transition_matrices_.full
  let denominator := den.ret
  -- Mutation Probability
  let mup := -E.expm1 (numerator - denominator)
  let calls := [Call.SetGenotypeLikelihoods, Call.SetFounders] ++ num.calls ++ den.calls
  if mup < self.min_prob_ then
    { ret := false, work := den.work, stats := stats, calls := calls }
  else
    match stats with
    | none => { ret := true, work := den.work, stats := none, calls := calls }
    | some st =>
      let r := self.populate E scale denominator mup den.work st
      { ret := true, work := r.work, stats := some r.stats, calls := calls ++ r.calls }

end call_operator

/-! ## Names for the intermediate values of `CallMutations::operator()` -/

section stages
variable {α D G : Type} [LinearOrderedField α]

/-- The workspace after `SetGenotypeLikelihoods` and `SetFounders`. -/
def CallMutations.seeded (E : Extern α D) (self : CallMutations α G) (depths : D)
    (ref_index : Nat) : workspace_t α :=
  E.SetFounders (E.SetGenotypeLikelihoods self.work_ depths ref_index).2
    (self.diploid_prior_.getD ref_index []) (self.haploid_prior_.getD ref_index [])

/-- The first forward peel of `operator()`, with the zero-mutation matrices. -/
def CallMutations.numeratorPeel (E : Extern α D) (self : CallMutations α G) (depths : D)
    (ref_index : Nat) : PeelResult α :=
  PeelForwards E self.graph_ (self.seeded E depths ref_index) self.zero_mutation_matrices_.full

/-- The second forward peel of `operator()`, with the full matrices, on the
workspace the first one left. -/
def CallMutations.denominatorPeel (E : Extern α D) (self : CallMutations α G) (depths : D)
    (ref_index : Nat) : PeelResult α :=
  PeelForwards E self.graph_ (self.numeratorPeel E depths ref_index).work
    self.transition_matrices_.full

/-- The local `mup` of `operator()`: `-std::expm1(numerator - denominator)`. -/
def CallMutations.mutationProbability (E : Extern α D) (self : CallMutations α G) (depths : D)
    (ref_index : Nat) : α :=
  -E.expm1 ((self.numeratorPeel E depths ref_index).ret - (self.denominatorPeel E depths ref_index).ret)

/-- The calls `operator()` has made when it compares `mup` with `min_prob_`. -/
def CallMutations.callsBeforeTest (E : Extern α D) (self : CallMutations α G) (depths : D)
    (ref_index : Nat) : List Call :=
  [Call.SetGenotypeLikelihoods, Call.SetFounders] ++ (self.numeratorPeel E depths ref_index).calls
    ++ (self.denominatorPeel E depths ref_index).calls

end stages

section stages_populate
variable {α D G : Type} [LinearOrderedField α] [FloorRing α]

/-- The result of the second half of `operator()` for the values the first
half has computed. -/
def CallMutations.populated (E : Extern α D) (self : CallMutations α G) (depths : D)
    (ref_index : Nat) (st : stats_t α) : PopulateResult α :=
  self.populate E (E.SetGenotypeLikelihoods self.work_ depths ref_index).1
    (self.denominatorPeel E depths ref_index).ret (self.mutationProbability E depths ref_index)
    (self.denominatorPeel E depths ref_index).work st

/-- The workspace the scoring loop of `operator()` reads: after
`PeelBackwards` with the full matrices, then `PeelForwards` and `PeelBackwards`
with the zero-mutation matrices. -/
def CallMutations.scoringWork (E : Extern α D) (self : CallMutations α G) (depths : D)
    (ref_index : Nat) : workspace_t α :=
  (PeelBackwards E self.graph_
    (PeelForwards E self.graph_
      (PeelBackwards E self.graph_ (self.denominatorPeel E depths ref_index).work
        self.transition_matrices_.full).work
      self.zero_mutation_matrices_.full).work
    self.zero_mutation_matrices_.full).work

/-- The sum of the score matrix of node `i`, `temp_buffer.sum()`. -/
def nodeScore (work : workspace_t α) (one : TransitionMatrixVector α) (i : Nat) : α :=
  matSum (scoreMatrix work one i)

/-- The sum of the node scores over the non-founder nodes
`founder_nodes.second ≤ i < num_nodes`. -/
def totalScore (work : workspace_t α) (one : TransitionMatrixVector α) : α :=
  ((List.range' work.founder_nodes.2 (work.num_nodes - work.founder_nodes.2)).map
    (nodeScore work one)).sum

end stages_populate

/-! ## The special values of a `double` at the threshold test

The embedding above computes with numbers only.  The test `mup < min_prob_`
of `operator()` is the one place where a special value of a `double` decides
which branch runs: `log 0` is `-inf`, `-inf - -inf` is a NaN, and every
comparison with a NaN is false.  The definitions below follow the two forward
results, `mup` and the test with these values.  The root sums themselves are
numbers (the entries of the workspace are), and arithmetic on numbers stays
exact. -/

/-- A `double`: a number, one of the two infinities or a NaN. -/
inductive Dbl (α : Type) where
  | num (x : α)
  | posInf
  | negInf
  | nan

section ieee
variable {α D G : Type} [LinearOrderedField α]

/-- Addition of two `double`s: a NaN gives a NaN, opposite infinities give a
NaN, an infinity absorbs a number. -/
def Dbl.add : Dbl α → Dbl α → Dbl α
  | .nan, _ => .nan
  | _, .nan => .nan
  | .num x, .num y => .num (x + y)
  | .posInf, .negInf => .nan
  | .negInf, .posInf => .nan
  | .posInf, _ => .posInf
  | _, .posInf => .posInf
  | .negInf, _ => .negInf
  | _, .negInf => .negInf

/-- Unary minus of a `double`. -/
def Dbl.neg : Dbl α → Dbl α
  | .num x => .num (-x)
  | .posInf => .negInf
  | .negInf => .posInf
  | .nan => .nan

/-- Subtraction of two `double`s, `a - b`. -/
def Dbl.sub (a b : Dbl α) : Dbl α := a.add b.neg

/-- The comparison `a < b` of two `double`s: false when either is a NaN. -/
def Dbl.lt : Dbl α → Dbl α → Bool
  | .nan, _ => false
  | _, .nan => false
  | .num x, .num y => decide (x < y)
  | .negInf, .negInf => false
  | .negInf, _ => true
  | _, .negInf => false
  | .posInf, _ => false
  | _, .posInf => true

/-- The comparison `a >= b` of two `double`s: false when either is a NaN. -/
def Dbl.ge : Dbl α → Dbl α → Bool
  | .nan, _ => false
  | _, .nan => false
  | .num x, .num y => decide (y ≤ x)
  | .posInf, _ => true
  | _, .negInf => true
  | .negInf, _ => false
  | _, .posInf => false

/-- The `log` of `<cmath>` on a number, with its special results: a NaN below
zero, `-inf` at zero. -/
def logIEEE (E : Extern α D) (x : α) : Dbl α :=
  if x < 0 then .nan else if x = 0 then .negInf else .num (E.log x)

/-- The function `std::expm1` on a `double`: `expm1(-inf) = -1`,
`expm1(+inf) = +inf`, a NaN gives a NaN. -/
def expm1IEEE (E : Extern α D) : Dbl α → Dbl α
  | .num x => .num (E.expm1 x)
  | .posInf => .posInf
  | .negInf => .num (-1)
  | .nan => .nan

/-- The root loop of `PeelForwards` on the workspace the peeling functions
left: `ret = 0.0; for (auto r : roots_) ret += log(rootSum);`, as a `double`. -/
def forwardResultIEEE (E : Extern α D) (g : RelationshipGraph α) (work : workspace_t α) :
    Dbl α :=
  g.roots_.foldl (fun ret r => ret.add (logIEEE E (rootSum work r))) (.num 0)

/-- The local `numerator` of `operator()`, as a `double`. -/
def CallMutations.numeratorIEEE (E : Extern α D) (self : CallMutations α G) (depths : D)
    (ref_index : Nat) : Dbl α :=
  forwardResultIEEE E self.graph_ (self.numeratorPeel E depths ref_index).work

/-- The local `denominator` of `operator()`, as a `double`. -/
def CallMutations.denominatorIEEE (E : Extern α D) (self : CallMutations α G) (depths : D)
    (ref_index : Nat) : Dbl α :=
  forwardResultIEEE E self.graph_ (self.denominatorPeel E depths ref_index).work

/-- The local `mup` of `operator()`, `-std::expm1(numerator - denominator)`, as
a `double`. -/
def CallMutations.mupIEEE (E : Extern α D) (self : CallMutations α G) (depths : D)
    (ref_index : Nat) : Dbl α :=
  (expm1IEEE E ((self.numeratorIEEE E depths ref_index).sub
    (self.denominatorIEEE E depths ref_index))).neg

/-- What the threshold test of `operator()` decides: the boolean the function
returns and the value it writes to `stats->mup` (`none` when it writes
nothing). -/
structure ThresholdOutcome (α : Type) where
  ret : Bool
  mup : Option (Dbl α)

/-- The method `CallMutations::operator()` from the test `mup < min_prob_` on,
with the comparison of `double`s: lines 73 to 78 and the `return true` of line
157.  The parameter `stats_is_null` is `stats == nullptr`. -/
def CallMutations.operatorIEEE (E : Extern α D) (self : CallMutations α G) (depths : D)
    (ref_index : Nat) (stats_is_null : Bool) : ThresholdOutcome α :=
  let mup := self.mupIEEE E depths ref_index
  if mup.lt (.num self.min_prob_) then
    { ret := false, mup := none }
  else if stats_is_null then
    { ret := true, mup := none }
  else
    { ret := true, mup := some mup }

end ieee

/-! ## A small pedigree to evaluate the definitions on

One founder (node `0`, the root) and its one library (node `1`), two genotypes
per node.  The forward program is the single operation "pull the library up
into the founder", the reverse program the single operation "push the founder
down to the library". -/

section small_pedigree
variable {α : Type} [LinearOrderedField α]

/-- The forward operation of the small pedigree, on the family `[parent, child]`:
`lower[parent] = mat[child] * lower[child]`. -/
def exUp : function_t α := fun w fam mat =>
  let message := matVec (mat.getD (fam.getD 1 0) []) (w.lower.getD (fam.getD 1 0) [])
  { w with lower := w.lower.set (fam.getD 0 0) message }

/-- Transpose of a matrix given by its rows. -/
def exTranspose : List (List α) → List (List α)
  | [] => []
  | [r] => r.map (fun x => [x])
  | r :: rs => List.zipWith (fun x col => x :: col) r (exTranspose rs)

/-- The reverse operation of the small pedigree, on the family `[parent, child]`:
`super[child] = upper[parent]` and `upper[child] = mat[child]ᵀ * super[child]`. -/
def exDown : function_t α := fun w fam mat =>
  let above := w.upper.getD (fam.getD 0 0) []
  let message := matVec (exTranspose (mat.getD (fam.getD 1 0) [])) above
  { w with super := w.super.set (fam.getD 1 0) above, upper := w.upper.set (fam.getD 1 0) message }

/-- The graph of the small pedigree. -/
def exGraph : RelationshipGraph α :=
  { num_nodes_ := 2
    first_founder_ := 0
    first_nonfounder_ := 1
    first_somatic_ := 1
    first_library_ := 1
    roots_ := [0]
    labels_ := ["GL-1", "LB-1"]
    transitions_ :=
      [{ type := TransitionType.Founder, parent1 := 0, parent2 := 0, length1 := 0, length2 := 0,
         sex := 0, ploidy := 2 },
       { type := TransitionType.Library, parent1 := 0, parent2 := 0, length1 := 1, length2 := 0,
         sex := 0, ploidy := 2 }]
    peeling_functions_ := [exUp]
    peeling_reverse_functions_ := [exDown]
    family_members_ := [[0, 1]] }

/-- A fresh workspace of the small pedigree. -/
def exWork : workspace_t α :=
  { upper := [[0, 0], [0, 0]]
    lower := [[1, 1], [1, 1]]
    super := [[0, 0], [0, 0]]
    temp_buffer := []
    forward_result := 0
    dirty_lower := false
    num_nodes := 2
    founder_nodes := (0, 1)
    germline_nodes := (0, 1)
    somatic_nodes := (1, 1)
    library_nodes := (1, 2) }

/-- The transition matrices of the small pedigree for a mutation type: `0` no
mutation, `1` exactly one, `-2` the mean, anything else the full matrix.  The
library mutates with probability `1/10`. -/
def exMatrices (mutype : Int) : TransitionMatrixVector α :=
  if mutype = 0 then [[], [[9 / 10, 0], [0, 9 / 10]]]
  else if mutype = 1 then [[], [[0, 1 / 10], [1 / 10, 0]]]
  else if mutype = -2 then [[], [[0, 1 / 10], [1 / 10, 0]]]
  else [[], [[9 / 10, 1 / 10], [1 / 10, 9 / 10]]]

/-- The surroundings of the small pedigree, for given functions of `<cmath>`.
The depths are the genotype likelihoods of the library; the scale is `0`. -/
def exExtern (log sqrt expm1 log10 : α → α) (ln10 : α) : Extern α (GenotypeArray α) :=
  { log := log
    sqrt := sqrt
    expm1 := expm1
    log10 := log10
    M_LN10 := ln10
    CleanupFast := fun w => { w with lower := w.lower.set 0 [1, 1], dirty_lower := false }
    SetGenotypeLikelihoods := fun w depths _ => (0, { w with lower := w.lower.set 1 depths })
    SetFounders := fun w diploid _ => { w with upper := w.upper.set 0 diploid }
    create_mutation_matrices := fun _ _ mutype => exMatrices mutype
    create_mutation_matrices_subset := fun full _ => full
    type_info_table_length := 2
    MUTATIONS_ALL := -1
    MUTATIONS_MEAN := -2
    meiotic_diploid_mutation_labels := [["AA>AA", "AA>AC"], ["AC>AA", "AC>AC"]]
    mitotic_diploid_mutation_labels := [["A>A", "A>C"], ["C>A", "C>C"]] }

/-- The object `LogProbability(graph, params)` of the small pedigree. -/
def exBase : LogProbability α Unit :=
  { graph_ := exGraph
    params_ := { theta := 1 / 1000, nuc_freq := [1 / 4, 1 / 4, 1 / 4, 1 / 4], ref_weight := 1,
                 params_a := (), params_b := () }
    work_ := exWork
    transition_matrices_ := { full := exMatrices (-1), subsets := [exMatrices (-1), exMatrices (-1)] }
    prob_monomorphic_ := [1, 1, 1, 1]
    diploid_prior_ := [[1 / 2, 1 / 2]]
    haploid_prior_ := [[1 / 2, 1 / 2]] }

/-- A stand-in for the functions of `<cmath>` over any field, for evaluating
the definitions: `log x = x - 1`, `sqrt x = x`, `expm1 x = x`,
`log10 x = x - 1`, `M_LN10 = 2`. -/
def exToy : Extern α (GenotypeArray α) :=
  exExtern (fun x => x - 1) (fun x => x) (fun x => x) (fun x => x - 1) 2

/-- An empty output record. -/
def exStats : stats_t α :=
  { mup := 0, lld := 0, genotype_likelihoods := [], posterior_probabilities := [], mux := 0,
    node_mup := [], node_mu1p := [], mu1p := 0, dnq := 0, dnl := "", dnt := "" }

/-- The mutation caller of the small pedigree with threshold `min_prob`, built
by the constructor. -/
def exCall (min_prob : α) : CallMutations α Unit := CallMutations.ctor exToy min_prob exBase

/-- A mutation caller of the small pedigree whose library never mutates: the
full and the zero-mutation matrix are the identity, the one-mutation, mean and
one-or-more matrices are zero. -/
def exCallNoMutation (min_prob : α) : CallMutations α Unit :=
  { toLogProbability :=
      { exBase with transition_matrices_ := { full := [[], [[1, 0], [0, 1]]], subsets := [] } }
    min_prob_ := min_prob
    zero_mutation_matrices_ := { full := [[], [[1, 0], [0, 1]]], subsets := [] }
    one_mutation_matrices_ := { full := [[], [[0, 0], [0, 0]]], subsets := [] }
    mean_mutation_matrices_ := { full := [[], [[0, 0], [0, 0]]], subsets := [] }
    oneplus_mutation_matrices_ := { full := [[], [[0, 0], [0, 0]]], subsets := [] } }

/-- A pedigree without a non-founder node: one founder (node `0`, the root) and
no library.  There is nothing to peel. -/
def exGraphFounder : RelationshipGraph α :=
  { num_nodes_ := 1
    first_founder_ := 0
    first_nonfounder_ := 1
    first_somatic_ := 1
    first_library_ := 1
    roots_ := [0]
    labels_ := ["GL-1"]
    transitions_ :=
      [{ type := TransitionType.Founder, parent1 := 0, parent2 := 0, length1 := 0, length2 := 0,
         sex := 0, ploidy := 2 }]
    peeling_functions_ := []
    peeling_reverse_functions_ := []
    family_members_ := [] }

/-- A fresh workspace of the pedigree without a non-founder node. -/
def exWorkFounder : workspace_t α :=
  { upper := [[0, 0]]
    lower := [[1, 1]]
    super := [[0, 0]]
    temp_buffer := []
    forward_result := 0
    dirty_lower := false
    num_nodes := 1
    founder_nodes := (0, 1)
    germline_nodes := (0, 1)
    somatic_nodes := (1, 1)
    library_nodes := (1, 1) }

/-- The surroundings of the pedigree without a non-founder node: there is no
library to read depths for, and the founder has no transition matrix. -/
def exExternFounder (log sqrt expm1 log10 : α → α) (ln10 : α) : Extern α (GenotypeArray α) :=
  { exExtern log sqrt expm1 log10 ln10 with
    SetGenotypeLikelihoods := fun w _ _ => (0, w)
    create_mutation_matrices := fun _ _ _ => [[]] }

/-- The mutation caller of the pedigree without a non-founder node, built by
the constructor. -/
def exCallFounder (min_prob : α) : CallMutations α Unit :=
  CallMutations.ctor (exExternFounder (fun x => x - 1) (fun x => x) (fun x => x) (fun x => x - 1) 2)
    min_prob
    { graph_ := exGraphFounder
      params_ := { theta := 1 / 1000, nuc_freq := [1 / 4, 1 / 4, 1 / 4, 1 / 4], ref_weight := 1,
                   params_a := (), params_b := () }
      work_ := exWorkFounder
      transition_matrices_ := { full := [[]], subsets := [[[]], [[]]] }
      prob_monomorphic_ := [1, 1, 1, 1]
      diploid_prior_ := [[1 / 2, 1 / 2]]
      haploid_prior_ := [[1 / 2, 1 / 2]] }

end small_pedigree

/-! ## Lemmas on the loops -/

section loops
variable {σ : Type}

theorem forRange_go_eq_foldl (body : Nat → σ → σ) (k i : Nat) (s : σ) :
    forRange.go body k i s = (List.range' i k).foldl (fun s j => body j s) s := by
  induction k generalizing i s with
  | zero => rfl
  | succ k ih => simp [forRange.go, List.range', ih]

theorem forRange_eq_foldl (lo hi : Nat) (body : Nat → σ → σ) (s : σ) :
    forRange lo hi body s = (List.range' lo (hi - lo)).foldl (fun s j => body j s) s :=
  forRange_go_eq_foldl body (hi - lo) lo s

theorem forRange_zero_eq_foldl (n : Nat) (body : Nat → σ → σ) (s : σ) :
    forRange 0 n body s = (List.range n).foldl (fun s j => body j s) s := by
  rw [forRange_eq_foldl, Nat.sub_zero, List.range_eq_range']

theorem forDown_eq_foldl (body : Nat → σ → σ) (n : Nat) (s : σ) :
    forDown body n s = (List.range n).reverse.foldl (fun s j => body j s) s := by
  induction n generalizing s with
  | zero => rfl
  | succ n ih => simp [forDown, List.range_succ, ih]

end loops

/-! ## Lemmas on the two peeling passes -/

section peeling_lemmas
set_option linter.unusedSectionVars false
variable {α D : Type} [LinearOrderedField α]

theorem foldl_forwardStep_fst (g : RelationshipGraph α) (mat : TransitionMatrixVector α)
    (l : List Nat) (s : List Call × workspace_t α) :
    (l.foldl (fun s j => forwardStep g mat j s) s).1 = s.1 ++ l.map Call.peeling_function := by
  induction l generalizing s with
  | nil => simp
  | cons j l ih => rw [List.foldl_cons, ih]; simp [forwardStep]

theorem foldl_forwardStep_snd (g : RelationshipGraph α) (mat : TransitionMatrixVector α)
    (l : List Nat) (s : List Call × workspace_t α) :
    (l.foldl (fun s j => forwardStep g mat j s) s).2 =
      l.foldl (fun w j => (g.peeling_functions_.getD j (fun w _ _ => w)) w
        (g.family_members_.getD j []) mat) s.2 := by
  induction l generalizing s with
  | nil => rfl
  | cons j l ih => rw [List.foldl_cons, ih]; rfl

theorem foldl_backwardStep_fst (g : RelationshipGraph α) (mat : TransitionMatrixVector α)
    (l : List Nat) (s : List Call × workspace_t α) :
    (l.foldl (fun s j => backwardStep g mat j s) s).1 =
      s.1 ++ l.map Call.peeling_reverse_function := by
  induction l generalizing s with
  | nil => simp
  | cons j l ih => rw [List.foldl_cons, ih]; simp [backwardStep]

/-- A loop over `range' k fs.length` that reads `(pre ++ fs)[j]` visits the
elements of `fs` in order, each with its own index. -/
theorem foldl_range_getD_eq_enumFrom {β γ : Type} (step : γ → Nat → β → γ) (d : β)
    (pre fs : List β) (w : γ) :
    (List.range' pre.length fs.length).foldl (fun w j => step w j ((pre ++ fs).getD j d)) w =
      (fs.enumFrom pre.length).foldl (fun w p => step w p.1 p.2) w := by
  induction fs generalizing pre w with
  | nil => simp
  | cons f fs ih =>
    have h := ih (pre ++ [f]) (step w pre.length f)
    simp only [List.length_append, List.length_singleton, List.append_assoc,
      List.singleton_append] at h
    have hf : (pre ++ f :: fs).getD pre.length d = f := by
      rw [List.getD_eq_getElem?_getD, List.getElem?_append_right (le_refl _)]
      simp
    simp only [List.length_cons, List.range', List.foldl_cons, List.enumFrom_cons]
    rw [← h, hf]

theorem foldl_range_getD_eq_enum {β γ : Type} (step : γ → Nat → β → γ) (d : β)
    (fs : List β) (w : γ) :
    (List.range fs.length).foldl (fun w j => step w j (fs.getD j d)) w =
      fs.enum.foldl (fun w p => step w p.1 p.2) w := by
  have h := foldl_range_getD_eq_enumFrom step d [] fs w
  simpa [List.range_eq_range', List.enum] using h

theorem foldl_add_eq_sum {β : Type} (f : β → α) (l : List β) (a : α) :
    l.foldl (fun acc r => acc + f r) a = a + (l.map f).sum := by
  induction l generalizing a with
  | nil => simp
  | cons r l ih => simp [ih, add_assoc]

theorem PeelForwards_calls (E : Extern α D) (g : RelationshipGraph α) (work : workspace_t α)
    (mat : TransitionMatrixVector α) :
    (PeelForwards E g work mat).calls =
      Call.PeelForwards :: ((if work.dirty_lower then [Call.CleanupFast] else []) ++
        (List.range g.peeling_functions_.length).map Call.peeling_function) := by
  simp only [PeelForwards, forRange_zero_eq_foldl, foldl_forwardStep_fst]
  cases work.dirty_lower <;> simp

theorem PeelBackwards_calls (E : Extern α D) (g : RelationshipGraph α) (work : workspace_t α)
    (mat : TransitionMatrixVector α) :
    (PeelBackwards E g work mat).calls =
      Call.PeelBackwards ::
        (List.range g.peeling_reverse_functions_.length).reverse.map
          Call.peeling_reverse_function := by
  simp only [PeelBackwards, forDown_eq_foldl, foldl_backwardStep_fst]
  simp

theorem PeelForwards_work (E : Extern α D) (g : RelationshipGraph α) (work : workspace_t α)
    (mat : TransitionMatrixVector α) :
    (PeelForwards E g work mat).work =
      { g.peeling_functions_.enum.foldl
          (fun w p => p.2 w (g.family_members_.getD p.1 []) mat)
          (if work.dirty_lower then E.CleanupFast work else work) with
        forward_result := (PeelForwards E g work mat).ret } := by
  have h := foldl_range_getD_eq_enum
    (fun (w : workspace_t α) (j : Nat) (f : function_t α) => f w (g.family_members_.getD j []) mat)
    (fun w _ _ => w) g.peeling_functions_
  simp only [PeelForwards, forRange_zero_eq_foldl, foldl_forwardStep_snd]
  cases work.dirty_lower <;> simp only [if_true, if_false, Bool.false_eq_true, h]

theorem PeelForwards_ret (E : Extern α D) (g : RelationshipGraph α) (work : workspace_t α)
    (mat : TransitionMatrixVector α) :
    (PeelForwards E g work mat).ret =
      (g.roots_.map (fun r => E.log (rootSum (PeelForwards E g work mat).work r))).sum := by
  simp only [PeelForwards]
  have h := foldl_add_eq_sum
    (fun r => E.log (rootSum (forRange 0 g.peeling_functions_.length (forwardStep g mat)
      (if work.dirty_lower = true then ([Call.PeelForwards, Call.CleanupFast], E.CleanupFast work)
        else ([Call.PeelForwards], work))).2 r)) g.roots_ 0
  simp only [zero_add] at h
  exact h

end peeling_lemmas

/-! ## The root loop of `PeelBackwards` -/

section root_loop
set_option linter.unusedSectionVars false
variable {α D : Type} [LinearOrderedField α]

/-- The root step of `PeelBackwards` changes `lower` and `upper` at `r` only. -/
theorem backwardRoot_getD (E : Extern α D) (s : α × workspace_t α) (r q : Nat) (h : q ≠ r) :
    (backwardRoot E s r).2.lower.getD q [] = s.2.lower.getD q [] ∧
    (backwardRoot E s r).2.upper.getD q [] = s.2.upper.getD q [] := by
  have h1 : ¬ r = q := fun e => h e.symm
  simp [backwardRoot, List.getD_eq_getElem?_getD, List.getElem?_set, h1]

theorem backwardRoot_fst (E : Extern α D) (s : α × workspace_t α) (r : Nat) :
    (backwardRoot E s r).1 = s.1 + E.log (rootSum s.2 r) := rfl

/-- On a list of pairwise distinct roots the root loop of `PeelBackwards`
accumulates the same value as the root loop of `PeelForwards` run on any
workspace that has the same `lower` and `upper` arrays at those roots. -/
theorem foldl_backwardRoot_fst (E : Extern α D) (l : List Nat) (hl : l.Nodup)
    (w : workspace_t α) (s : α × workspace_t α)
    (hs : ∀ q ∈ l, s.2.lower.getD q [] = w.lower.getD q [] ∧
      s.2.upper.getD q [] = w.upper.getD q []) :
    (l.foldl (backwardRoot E) s).1 = l.foldl (forwardRoot E w) s.1 := by
  induction l generalizing s with
  | nil => rfl
  | cons r l ih =>
    have hr : r ∉ l := (List.nodup_cons.mp hl).1
    have hs0 := hs r (List.mem_cons_self r l)
    have hroot : rootSum s.2 r = rootSum w r := by
      simp only [rootSum, hs0.1, hs0.2]
    rw [List.foldl_cons, List.foldl_cons, ih (List.nodup_cons.mp hl).2]
    · rw [backwardRoot_fst, hroot]; rfl
    · intro q hq
      have hne : q ≠ r := fun e => hr (e ▸ hq)
      have hb := backwardRoot_getD E s r q hne
      have hq0 := hs q (List.mem_cons_of_mem r hq)
      exact ⟨hb.1.trans hq0.1, hb.2.trans hq0.2⟩

end root_loop

/-! ## Claims on the peeling passes -/

section peeling_claims
variable {α D : Type} [LinearOrderedField α]

/-- Claim C3.  `PeelForwards` calls the forward peeling functions once each, in
increasing index order, function `i` on `family_members_[i]` with the given
matrices (on the workspace `CleanupFast` leaves when `dirty_lower` was set);
it returns the sum over the roots `r` of `log (sum over g of
lower[r][g] * upper[r][g])` taken on the workspace the functions leave, which
is `0` without roots, and stores that value in `forward_result`. -/
theorem PeelForwards_runs_program_and_sums_roots (E : Extern α D) (g : RelationshipGraph α)
    (work : workspace_t α) (mat : TransitionMatrixVector α) :
    (PeelForwards E g work mat).calls =
      Call.PeelForwards :: ((if work.dirty_lower then [Call.CleanupFast] else []) ++
        (List.range g.peeling_functions_.length).map Call.peeling_function) ∧
    (PeelForwards E g work mat).work =
      { g.peeling_functions_.enum.foldl
          (fun w p => p.2 w (g.family_members_.getD p.1 []) mat)
          (if work.dirty_lower then E.CleanupFast work else work) with
        forward_result := (PeelForwards E g work mat).ret } ∧
    (PeelForwards E g work mat).ret =
      (g.roots_.map (fun r => E.log
        (List.zipWith (fun x y => x * y)
          ((g.peeling_functions_.enum.foldl
            (fun w p => p.2 w (g.family_members_.getD p.1 []) mat)
            (if work.dirty_lower then E.CleanupFast work else work)).lower.getD r [])
          ((g.peeling_functions_.enum.foldl
            (fun w p => p.2 w (g.family_members_.getD p.1 []) mat)
            (if work.dirty_lower then E.CleanupFast work else work)).upper.getD r [])).sum)).sum ∧
    (PeelForwards E g work mat).work.forward_result = (PeelForwards E g work mat).ret ∧
    (g.roots_ = [] → (PeelForwards E g work mat).ret = 0) := by
  refine ⟨PeelForwards_calls E g work mat, PeelForwards_work E g work mat, ?_, ?_, ?_⟩
  · have h := PeelForwards_ret E g work mat
    rw [PeelForwards_work] at h
    exact h
  · rfl
  · intro h
    simp [PeelForwards, h]

/-- Claim C6.  When the roots are pairwise distinct, `PeelBackwards` run on the
workspace `PeelForwards` has just left returns the value `PeelForwards`
returned and stored in `forward_result`, whatever matrices either is given. -/
theorem PeelBackwards_returns_forward_result (E : Extern α D) (g : RelationshipGraph α)
    (work : workspace_t α) (mat mat' : TransitionMatrixVector α) (hroots : g.roots_.Nodup) :
    (PeelBackwards E g (PeelForwards E g work mat).work mat').ret =
        (PeelForwards E g work mat).ret ∧
    (PeelBackwards E g (PeelForwards E g work mat).work mat').ret =
        (PeelForwards E g work mat).work.forward_result := by
  have h := foldl_backwardRoot_fst E g.roots_ hroots (PeelForwards E g work mat).work
    (0, (PeelForwards E g work mat).work) (fun _ _ => ⟨rfl, rfl⟩)
  have h2 : (PeelBackwards E g (PeelForwards E g work mat).work mat').ret =
      (PeelForwards E g work mat).ret := by
    simp only [PeelBackwards]
    rw [h]
    rfl
  exact ⟨h2, h2⟩

/-- Claim C6, on the small pedigree: its single root is a list without
repetition, and the backward pass returns what the forward pass returned. -/
theorem PeelBackwards_returns_forward_result_witness :
    (exGraph (α := ℚ)).roots_.Nodup ∧
    (PeelBackwards exToy exGraph (PeelForwards exToy exGraph exWork (exMatrices 0)).work
      (exMatrices (-1))).ret = (PeelForwards exToy exGraph (exWork (α := ℚ)) (exMatrices 0)).ret :=
  ⟨by simp [exGraph],
   (PeelBackwards_returns_forward_result exToy exGraph exWork (exMatrices 0) (exMatrices (-1))
      (by simp [exGraph])).1⟩

end peeling_claims

/-! ## The three ways out of `CallMutations::operator()` -/

section operator_lemmas
variable {α D G : Type} [LinearOrderedField α] [FloorRing α]

theorem operator_of_lt (E : Extern α D) (self : CallMutations α G) (depths : D)
    (ref_index : Nat) (stats : Option (stats_t α))
    (h : self.mutationProbability E depths ref_index < self.min_prob_) :
    self.operator E depths ref_index stats =
      { ret := false, work := (self.denominatorPeel E depths ref_index).work, stats := stats,
        calls := self.callsBeforeTest E depths ref_index } := by
  show (if self.mutationProbability E depths ref_index < self.min_prob_ then _ else _) = _
  rw [if_pos h]
  rfl

theorem operator_none_of_not_lt (E : Extern α D) (self : CallMutations α G) (depths : D)
    (ref_index : Nat) (h : ¬ self.mutationProbability E depths ref_index < self.min_prob_) :
    self.operator E depths ref_index none =
      { ret := true, work := (self.denominatorPeel E depths ref_index).work, stats := none,
        calls := self.callsBeforeTest E depths ref_index } := by
  show (if self.mutationProbability E depths ref_index < self.min_prob_ then _ else _) = _
  rw [if_neg h]
  rfl

theorem operator_some_of_not_lt (E : Extern α D) (self : CallMutations α G) (depths : D)
    (ref_index : Nat) (st : stats_t α)
    (h : ¬ self.mutationProbability E depths ref_index < self.min_prob_) :
    self.operator E depths ref_index (some st) =
      { ret := true, work := (self.populated E depths ref_index st).work,
        stats := some (self.populated E depths ref_index st).stats,
        calls := self.callsBeforeTest E depths ref_index ++
          (self.populated E depths ref_index st).calls } := by
  show (if self.mutationProbability E depths ref_index < self.min_prob_ then _ else _) = _
  rw [if_neg h]
  rfl

theorem operator_ret (E : Extern α D) (self : CallMutations α G) (depths : D)
    (ref_index : Nat) (stats : Option (stats_t α)) :
    (self.operator E depths ref_index stats).ret = true ↔
      self.min_prob_ ≤ self.mutationProbability E depths ref_index := by
  by_cases h : self.mutationProbability E depths ref_index < self.min_prob_
  · rw [operator_of_lt E self depths ref_index stats h]
    simp [h]
  · cases stats with
    | none => rw [operator_none_of_not_lt E self depths ref_index h]; simpa using h
    | some st => rw [operator_some_of_not_lt E self depths ref_index st h]; simpa using h

end operator_lemmas

/-! ## The small pedigree, evaluated -/

section small_pedigree_values
variable {α : Type} [LinearOrderedField α]

theorem exCall_numerator (log sqrt expm1 log10 : α → α) (ln10 m : α) :
    ((exCall m).numeratorPeel (exExtern log sqrt expm1 log10 ln10) [1, 0] 0).ret =
      log (9 / 20) := by
  simp [exCall, CallMutations.numeratorPeel, CallMutations.seeded, CallMutations.ctor,
    LogProbability.CreateMutationMatrices, exToy, exExtern, exBase, exGraph, exWork, exMatrices,
    PeelForwards, forRange, forRange.go, forwardStep, forwardRoot, rootSum, exUp, matVec,
    arrayMul, arraySum]
  norm_num

theorem exCall_denominator (log sqrt expm1 log10 : α → α) (ln10 m : α) :
    ((exCall m).denominatorPeel (exExtern log sqrt expm1 log10 ln10) [1, 0] 0).ret =
      log (1 / 2) := by
  simp [exCall, CallMutations.numeratorPeel, CallMutations.denominatorPeel,
    CallMutations.seeded, CallMutations.ctor, LogProbability.CreateMutationMatrices, exToy,
    exExtern, exBase, exGraph, exWork, exMatrices, PeelForwards, forRange, forRange.go,
    forwardStep, forwardRoot, rootSum, exUp, matVec, arrayMul, arraySum]
  norm_num

theorem exCall_mutationProbability (log sqrt expm1 log10 : α → α) (ln10 m : α) :
    (exCall m).mutationProbability (exExtern log sqrt expm1 log10 ln10) [1, 0] 0 =
      -expm1 (log (9 / 20) - log (1 / 2)) := by
  rw [CallMutations.mutationProbability, exCall_numerator, exCall_denominator]
  rfl

theorem real_one_sub_exp_small : (1 : ℝ) - Real.exp (Real.log (9 / 20) - Real.log (1 / 2)) = 1 / 10 := by
  rw [Real.exp_sub, Real.exp_log (by norm_num), Real.exp_log (by norm_num)]
  norm_num

theorem exCall_zero_depths_mutationProbability (log sqrt expm1 log10 : α → α) (ln10 m : α) :
    (exCall m).mutationProbability (exExtern log sqrt expm1 log10 ln10) [0, 0] 0 = -expm1 0 := by
  simp [exCall, CallMutations.mutationProbability, CallMutations.numeratorPeel,
    CallMutations.denominatorPeel, CallMutations.seeded, CallMutations.ctor,
    LogProbability.CreateMutationMatrices, exToy, exExtern, exBase, exGraph, exWork, exMatrices,
    PeelForwards, forRange, forRange.go, forwardStep, forwardRoot, rootSum, exUp, matVec,
    arrayMul, arraySum]

theorem exCall_real_mutationProbability (m : ℝ) :
    (exCall m).mutationProbability (exExtern Real.log Real.sqrt (fun x => Real.exp x - 1)
      (fun x => Real.log x / Real.log 10) (Real.log 10)) [1, 0] 0 = 1 / 10 := by
  rw [exCall_mutationProbability]
  show -(Real.exp (Real.log (9 / 20) - Real.log (1 / 2)) - 1) = 1 / 10
  rw [← real_one_sub_exp_small]
  ring

end small_pedigree_values

section small_pedigree_record
variable {α : Type} [LinearOrderedField α] [FloorRing α]

theorem exCall_zero_depths_posterior (log sqrt expm1 log10 : α → α) (ln10 m : α) :
    ((exCall m).populated (exExtern log sqrt expm1 log10 ln10) [0, 0] 0
      exStats).stats.posterior_probabilities = [[0, 0], [0, 0]] := by
  show forRange 0 _ (posteriorStep
    (PeelBackwards _ _ ((exCall m).denominatorPeel _ _ _).work _).work) (resize _ _ []) = _
  simp [exCall, CallMutations.numeratorPeel, CallMutations.denominatorPeel,
    CallMutations.seeded, CallMutations.ctor, LogProbability.CreateMutationMatrices, exToy,
    exExtern, exBase, exGraph, exWork, exMatrices, PeelForwards, PeelBackwards, forRange,
    forRange.go, forDown, forwardStep, forwardRoot, backwardRoot, backwardStep, rootSum, exUp,
    exDown, exTranspose, matVec, arrayMul, arraySum, arrayDiv, posteriorStep, resize, exStats]

end small_pedigree_record

/-! ## Claims on the threshold test of `CallMutations::operator()` -/

section threshold_claims
variable {D G : Type}

theorem PeelBackwards_not_mem_PeelForwards_calls {α : Type} [LinearOrderedField α]
    (E : Extern α D) (g : RelationshipGraph α) (work : workspace_t α)
    (mat : TransitionMatrixVector α) :
    Call.PeelBackwards ∉ (PeelForwards E g work mat).calls ∧
    ∀ i, Call.peeling_reverse_function i ∉ (PeelForwards E g work mat).calls := by
  rw [PeelForwards_calls]
  cases work.dirty_lower <;> simp

theorem mutationProbability_real (E : Extern ℝ D) (self : CallMutations ℝ G) (depths : D)
    (ref_index : Nat) (hexpm1 : ∀ x, E.expm1 x = Real.exp x - 1) :
    self.mutationProbability E depths ref_index =
      1 - Real.exp ((self.numeratorPeel E depths ref_index).ret -
        (self.denominatorPeel E depths ref_index).ret) := by
  rw [CallMutations.mutationProbability, hexpm1]
  ring

end threshold_claims

section threshold_claims_generic
variable {α D G : Type} [LinearOrderedField α] [FloorRing α]

/-- Claim C2.  When `mup < min_prob_`, `operator()` returns false, the record
behind `stats` is the one it was on entry, the workspace is the one the second
`PeelForwards` left, and the calls made are `SetGenotypeLikelihoods`,
`SetFounders` and the two `PeelForwards`: neither `PeelBackwards` nor a reverse
peeling function is among them. -/
theorem operator_early_exit_leaves_stats (E : Extern α D) (self : CallMutations α G) (depths : D)
    (ref_index : Nat) (stats : Option (stats_t α))
    (h : self.mutationProbability E depths ref_index < self.min_prob_) :
    (self.operator E depths ref_index stats).ret = false ∧
    (self.operator E depths ref_index stats).stats = stats ∧
    (self.operator E depths ref_index stats).work = (self.denominatorPeel E depths ref_index).work ∧
    (self.operator E depths ref_index stats).calls =
      [Call.SetGenotypeLikelihoods, Call.SetFounders] ++
        (PeelForwards E self.graph_ (self.seeded E depths ref_index)
          self.zero_mutation_matrices_.full).calls ++
        (PeelForwards E self.graph_ (self.numeratorPeel E depths ref_index).work
          self.transition_matrices_.full).calls ∧
    Call.PeelBackwards ∉ (self.operator E depths ref_index stats).calls ∧
    ∀ i, Call.peeling_reverse_function i ∉ (self.operator E depths ref_index stats).calls := by
  rw [operator_of_lt E self depths ref_index stats h]
  have h1 := PeelBackwards_not_mem_PeelForwards_calls E self.graph_ (self.seeded E depths ref_index)
    self.zero_mutation_matrices_.full
  have h2 := PeelBackwards_not_mem_PeelForwards_calls E self.graph_
    (self.numeratorPeel E depths ref_index).work self.transition_matrices_.full
  refine ⟨rfl, rfl, rfl, rfl, ?_, ?_⟩
  · simp only [CallMutations.callsBeforeTest, CallMutations.numeratorPeel,
      CallMutations.denominatorPeel, List.mem_append, not_or]
    exact ⟨⟨by simp, h1.1⟩, h2.1⟩
  · intro i
    simp only [CallMutations.callsBeforeTest, CallMutations.numeratorPeel,
      CallMutations.denominatorPeel, List.mem_append, not_or]
    exact ⟨⟨by simp, h1.2 i⟩, h2.2 i⟩

/-- Claim C2, on the small pedigree over the reals: the mutation probability
`1/10` is below the threshold `1/2`; `operator()` returns false and the record
is untouched. -/
theorem operator_early_exit_leaves_stats_witness :
    (exCall (1 / 2 : ℝ)).mutationProbability (exExtern Real.log Real.sqrt (fun x => Real.exp x - 1)
      (fun x => Real.log x / Real.log 10) (Real.log 10)) [1, 0] 0 < (exCall (1 / 2 : ℝ)).min_prob_ ∧
    ((exCall (1 / 2 : ℝ)).operator (exExtern Real.log Real.sqrt (fun x => Real.exp x - 1)
      (fun x => Real.log x / Real.log 10) (Real.log 10)) [1, 0] 0 (some exStats)).ret = false ∧
    ((exCall (1 / 2 : ℝ)).operator (exExtern Real.log Real.sqrt (fun x => Real.exp x - 1)
      (fun x => Real.log x / Real.log 10) (Real.log 10)) [1, 0] 0 (some exStats)).stats = some exStats ∧
    Call.PeelBackwards ∉ ((exCall (1 / 2 : ℝ)).operator (exExtern Real.log Real.sqrt (fun x => Real.exp x - 1)
      (fun x => Real.log x / Real.log 10) (Real.log 10)) [1, 0] 0 (some exStats)).calls := by
  have hlt : (exCall (1 / 2 : ℝ)).mutationProbability (exExtern Real.log Real.sqrt (fun x => Real.exp x - 1)
      (fun x => Real.log x / Real.log 10) (Real.log 10)) [1, 0] 0 <
      (exCall (1 / 2 : ℝ)).min_prob_ := by
    rw [exCall_real_mutationProbability]
    show (1 / 10 : ℝ) < 1 / 2
    norm_num
  have h := operator_early_exit_leaves_stats (exExtern Real.log Real.sqrt (fun x => Real.exp x - 1)
      (fun x => Real.log x / Real.log 10) (Real.log 10)) (exCall (1 / 2 : ℝ)) [1, 0] 0 (some exStats) hlt
  exact ⟨hlt, h.1, h.2.1, h.2.2.2.2.1⟩

end threshold_claims_generic

/-! ## Loops that write one element of a vector per iteration -/

section set_loops
variable {β : Type}

theorem foldl_set_length (f : Nat → β) (l : List Nat) (v : List β) :
    (l.foldl (fun v i => v.set i (f i)) v).length = v.length := by
  induction l generalizing v with
  | nil => rfl
  | cons i l ih => rw [List.foldl_cons, ih, List.length_set]

theorem foldl_set_getElem? (f : Nat → β) (l : List Nat) (v : List β) (j : Nat) :
    (l.foldl (fun v i => v.set i (f i)) v)[j]? =
      if j ∈ l then v[j]?.map (fun _ => f j) else v[j]? := by
  induction l generalizing v with
  | nil => simp
  | cons i l ih =>
    rw [List.foldl_cons, ih, List.getElem?_set]
    by_cases hjl : j ∈ l
    · by_cases hij : i = j
      · subst hij
        by_cases hi : i < v.length
        · simp [hjl, hi]
        · have : v[i]? = none := List.getElem?_eq_none (not_lt.mp hi)
          simp [hjl, hi, this]
      · simp [hjl, hij]
    · by_cases hij : i = j
      · subst hij
        by_cases hi : i < v.length
        · simp [hjl, hi]
        · have : v[i]? = none := List.getElem?_eq_none (not_lt.mp hi)
          simp [hjl, hi, this]
      · have hji : ¬ j = i := fun e => hij e.symm
        simp [hjl, hij, hji]

theorem foldl_set_getD (f : Nat → β) (l : List Nat) (v : List β) (j : Nat) (d : β)
    (hj : j < v.length) :
    (l.foldl (fun v i => v.set i (f i)) v).getD j d = if j ∈ l then f j else v.getD j d := by
  rw [List.getD_eq_getElem?_getD, foldl_set_getElem?, List.getD_eq_getElem?_getD]
  by_cases hjl : j ∈ l <;> simp [hjl, List.getElem?_eq_getElem hj]

theorem resize_length (v : List β) (n : Nat) (d : β) : (resize v n d).length = n := by
  simp only [resize, List.length_append, List.length_take, List.length_replicate]
  omega

end set_loops

/-! ## Claims on the record `operator()` fills -/

section populate_lemmas
variable {α D G : Type} [LinearOrderedField α] [FloorRing α]

/-- When `operator()` returns true on a non-null `stats`, the record is the
one the second half of the function has filled. -/
theorem operator_stats_of_ret (E : Extern α D) (self : CallMutations α G) (depths : D)
    (ref_index : Nat) (st : stats_t α)
    (hret : (self.operator E depths ref_index (some st)).ret = true) :
    (self.operator E depths ref_index (some st)).stats =
      some (self.populated E depths ref_index st).stats := by
  have h : ¬ self.mutationProbability E depths ref_index < self.min_prob_ :=
    not_lt.mpr ((operator_ret E self depths ref_index (some st)).mp hret)
  rw [operator_some_of_not_lt E self depths ref_index st h]

omit [FloorRing α] in
theorem sum_map_div (p : List α) (s : α) : (p.map (fun x => x / s)).sum = p.sum / s := by
  induction p with
  | nil => simp
  | cons x p ih => simp [ih, add_div]

omit [FloorRing α] in
theorem arraySum_arrayDiv_self (p : GenotypeArray α) (h : arraySum p ≠ 0) :
    arraySum (arrayDiv p (arraySum p)) = 1 := by
  simp only [arraySum, arrayDiv, sum_map_div]
  exact div_self h

omit [FloorRing α] in
theorem posteriorStep_eq (work : workspace_t α) (i : Nat) (pp : List (GenotypeArray α)) :
    posteriorStep work i pp =
      pp.set i (arrayDiv (arrayMul (work.upper.getD i []) (work.lower.getD i []))
        (arraySum (arrayMul (work.upper.getD i []) (work.lower.getD i [])))) := by
  by_cases hi : i < pp.length
  · simp [posteriorStep, List.getD_eq_getElem?_getD, List.getElem?_set, hi, List.set_set]
  · have h1 : ∀ x, pp.set i x = pp := fun x => List.set_eq_of_length_le (not_lt.mp hi)
    simp only [posteriorStep, h1]

omit [FloorRing α] in
theorem posterior_loop_getD (work : workspace_t α) (v : List (GenotypeArray α)) (i : Nat)
    (hi : i < work.num_nodes) :
    (forRange 0 work.num_nodes (posteriorStep work) (resize v work.num_nodes [])).getD i [] =
      arrayDiv (arrayMul (work.upper.getD i []) (work.lower.getD i []))
        (arraySum (arrayMul (work.upper.getD i []) (work.lower.getD i []))) := by
  have hb : (fun (s : List (GenotypeArray α)) (j : Nat) => posteriorStep work j s) =
      (fun v j => v.set j (arrayDiv (arrayMul (work.upper.getD j []) (work.lower.getD j []))
        (arraySum (arrayMul (work.upper.getD j []) (work.lower.getD j []))))) := by
    funext s j
    exact posteriorStep_eq work j s
  rw [forRange_zero_eq_foldl, hb, foldl_set_getD _ _ _ _ _ (by rw [resize_length]; exact hi)]
  simp [hi]

omit [FloorRing α] in
theorem posterior_loop_length (work : workspace_t α) (v : List (GenotypeArray α)) :
    (forRange 0 work.num_nodes (posteriorStep work) (resize v work.num_nodes [])).length =
      work.num_nodes := by
  have hb : (fun (s : List (GenotypeArray α)) (j : Nat) => posteriorStep work j s) =
      (fun v j => v.set j (arrayDiv (arrayMul (work.upper.getD j []) (work.lower.getD j []))
        (arraySum (arrayMul (work.upper.getD j []) (work.lower.getD j []))))) := by
    funext s j
    exact posteriorStep_eq work j s
  rw [forRange_zero_eq_foldl, hb, foldl_set_length, resize_length]

end populate_lemmas

section posterior_claim
variable {α D G : Type} [LinearOrderedField α] [FloorRing α]

/-- Claim C4, as amended.  When `operator()` fills the record, then for every
node `i` of the workspace `posterior_probabilities[i]` is the elementwise
product `upper[i] * lower[i]` (as `PeelBackwards` with the full matrices left
them) divided by its own sum, and its entries sum to `1` when that sum is not
zero. -/
theorem posterior_probabilities_sum_to_one (E : Extern α D) (self : CallMutations α G)
    (depths : D) (ref_index : Nat) (st : stats_t α)
    (hret : (self.operator E depths ref_index (some st)).ret = true) :
    ∃ st', (self.operator E depths ref_index (some st)).stats = some st' ∧
      st'.posterior_probabilities.length =
        (PeelBackwards E self.graph_ (self.denominatorPeel E depths ref_index).work
          self.transition_matrices_.full).work.num_nodes ∧
      ∀ i, i < (PeelBackwards E self.graph_ (self.denominatorPeel E depths ref_index).work
          self.transition_matrices_.full).work.num_nodes →
        st'.posterior_probabilities.getD i [] =
          arrayDiv
            (arrayMul
              ((PeelBackwards E self.graph_ (self.denominatorPeel E depths ref_index).work
                self.transition_matrices_.full).work.upper.getD i [])
              ((PeelBackwards E self.graph_ (self.denominatorPeel E depths ref_index).work
                self.transition_matrices_.full).work.lower.getD i []))
            (arraySum (arrayMul
              ((PeelBackwards E self.graph_ (self.denominatorPeel E depths ref_index).work
                self.transition_matrices_.full).work.upper.getD i [])
              ((PeelBackwards E self.graph_ (self.denominatorPeel E depths ref_index).work
                self.transition_matrices_.full).work.lower.getD i []))) ∧
        (arraySum (arrayMul
            ((PeelBackwards E self.graph_ (self.denominatorPeel E depths ref_index).work
              self.transition_matrices_.full).work.upper.getD i [])
            ((PeelBackwards E self.graph_ (self.denominatorPeel E depths ref_index).work
              self.transition_matrices_.full).work.lower.getD i [])) ≠ 0 →
          (st'.posterior_probabilities.getD i []).sum = 1) := by
  refine ⟨_, operator_stats_of_ret E self depths ref_index st hret, ?_, ?_⟩
  · exact posterior_loop_length _ st.posterior_probabilities
  · intro i hi
    have h := posterior_loop_getD
      (PeelBackwards E self.graph_ (self.denominatorPeel E depths ref_index).work
        self.transition_matrices_.full).work st.posterior_probabilities i hi
    refine ⟨h, fun hne => ?_⟩
    have h2 : (self.populated E depths ref_index st).stats.posterior_probabilities.getD i [] = _ := h
    rw [h2]
    exact arraySum_arrayDiv_self _ hne

/-- Claim C4, on the small pedigree over the reals (threshold `1/100`, the
library reads genotype `0`): the record is filled and the amended claim
applies. -/
theorem posterior_probabilities_sum_to_one_witness :
    ((exCall (1 / 100 : ℝ)).operator (exExtern Real.log Real.sqrt (fun x => Real.exp x - 1)
      (fun x => Real.log x / Real.log 10) (Real.log 10)) [1, 0] 0 (some exStats)).ret = true ∧
    ∃ st', ((exCall (1 / 100 : ℝ)).operator (exExtern Real.log Real.sqrt (fun x => Real.exp x - 1)
      (fun x => Real.log x / Real.log 10) (Real.log 10)) [1, 0] 0 (some exStats)).stats = some st' ∧
      st'.posterior_probabilities.length =
        (PeelBackwards (exExtern Real.log Real.sqrt (fun x => Real.exp x - 1)
      (fun x => Real.log x / Real.log 10) (Real.log 10)) (exCall (1 / 100 : ℝ)).graph_
          ((exCall (1 / 100 : ℝ)).denominatorPeel (exExtern Real.log Real.sqrt (fun x => Real.exp x - 1)
      (fun x => Real.log x / Real.log 10) (Real.log 10)) [1, 0] 0).work
          (exCall (1 / 100 : ℝ)).transition_matrices_.full).work.num_nodes := by
  have hret : ((exCall (1 / 100 : ℝ)).operator (exExtern Real.log Real.sqrt (fun x => Real.exp x - 1)
      (fun x => Real.log x / Real.log 10) (Real.log 10)) [1, 0] 0 (some exStats)).ret = true := by
    rw [operator_ret, exCall_real_mutationProbability]
    show (1 / 100 : ℝ) ≤ 1 / 10
    norm_num
  obtain ⟨st', h1, h2, _⟩ :=
    posterior_probabilities_sum_to_one (exExtern Real.log Real.sqrt (fun x => Real.exp x - 1)
      (fun x => Real.log x / Real.log 10) (Real.log 10)) (exCall (1 / 100 : ℝ)) [1, 0] 0 exStats hret
  exact ⟨hret, st', h1, h2⟩

/-- Claim C4 as stated fails: on the small pedigree over the reals with
threshold `0`, a library whose genotype likelihoods are all `0` gives
`numerator = denominator`, so `mup = 0` and the record is filled; the product
`upper[0] * lower[0]` is `[0, 0]`, it is divided by its sum `0`, and the
posterior of node `0` does not sum to `1`.  (In IEEE arithmetic both logs are
`-inf`, `mup` is NaN, `NaN < min_prob_` is false for every threshold, and the
posterior is NaN.) -/
theorem posterior_probabilities_zero_sum :
    ((exCall (0 : ℝ)).operator (exExtern Real.log Real.sqrt (fun x => Real.exp x - 1)
      (fun x => Real.log x / Real.log 10) (Real.log 10)) [0, 0] 0 (some exStats)).ret = true ∧
    ∃ st', ((exCall (0 : ℝ)).operator (exExtern Real.log Real.sqrt (fun x => Real.exp x - 1)
      (fun x => Real.log x / Real.log 10) (Real.log 10)) [0, 0] 0 (some exStats)).stats = some st' ∧
      (st'.posterior_probabilities.getD 0 []).sum ≠ 1 := by
  have hret : ((exCall (0 : ℝ)).operator (exExtern Real.log Real.sqrt (fun x => Real.exp x - 1)
      (fun x => Real.log x / Real.log 10) (Real.log 10)) [0, 0] 0 (some exStats)).ret = true := by
    rw [operator_ret, exCall_zero_depths_mutationProbability]
    show (0 : ℝ) ≤ -(Real.exp 0 - 1)
    simp
  refine ⟨hret, _, operator_stats_of_ret _ _ _ _ _ hret, ?_⟩
  rw [exCall_zero_depths_posterior]
  simp

end posterior_claim


/-! ## The constructor -/

section ctor_claim
variable {α D G : Type} [LinearOrderedField α]

theorem zipWith_getD_nil {β γ : Type} (f : List β → List β → List γ) (a b : List (List β))
    (hl : ∀ x, f [] x = []) (hr : ∀ x, f x [] = []) (i : Nat) :
    (List.zipWith f a b).getD i [] = f (a.getD i []) (b.getD i []) := by
  simp only [List.getD_eq_getElem?_getD, List.getElem?_zipWith]
  cases ha : a[i]? with
  | none => simp [hl]
  | some x =>
    cases hb : b[i]? with
    | none => simp [hr]
    | some y => simp

theorem matSub_nil_left (B : TransitionMatrix α) : matSub [] B = [] := by
  simp [matSub]

theorem matSub_nil_right (A : TransitionMatrix α) : matSub A [] = [] := by
  simp [matSub]

theorem container_subtract_matSub_getD (a b : TransitionMatrixVector α) (i : Nat) :
    (container_subtract matSub a b).getD i [] = matSub (a.getD i []) (b.getD i []) :=
  zipWith_getD_nil matSub a b matSub_nil_left matSub_nil_right i

theorem coeff_matSub (A B : TransitionMatrix α) (r c : Nat) (hA : r < A.length)
    (hB : r < B.length) (hcA : c < (A.getD r []).length) (hcB : c < (B.getD r []).length) :
    coeff (matSub A B) r c = coeff A r c - coeff B r c := by
  simp only [List.getD_eq_getElem?_getD, List.getElem?_eq_getElem hA,
    List.getElem?_eq_getElem hB, Option.getD_some] at hcA hcB
  simp [coeff, matSub, List.getD_eq_getElem?_getD, List.getElem?_zipWith,
    List.getElem?_eq_getElem hA, List.getElem?_eq_getElem hB, List.getElem?_eq_getElem hcA,
    List.getElem?_eq_getElem hcB]

theorem container_subtract_spec {β : Type} (minus : β → β → β) (a b : List β)
    (h : a.length = b.length) :
    (container_subtract minus a b).length = a.length ∧
    ∀ k (ha : k < a.length) (hb : k < b.length),
      (container_subtract minus a b)[k]? = some (minus a[k] b[k]) := by
  refine ⟨by simp [container_subtract, h], fun k ha hb => ?_⟩
  simp [container_subtract, List.getElem?_zipWith, List.getElem?_eq_getElem ha,
    List.getElem?_eq_getElem hb]

/-- Claim C9.  The constructor takes the zero-mutation matrices from
`CreateMutationMatrices(0)` and builds the one-or-more-mutation matrices with
`container_subtract`: for every node index `i` the matrix is
`full[i] - zero[i]`, in the full set and in the set of every colour, and the
difference of two matrices is taken entry by entry.  For two containers of
equal length `container_subtract` returns a container of that length whose
`k`-th element is `a[k] - b[k]`. -/
theorem ctor_oneplus_is_full_minus_zero (E : Extern α D) (min_prob : α)
    (base : LogProbability α G) :
    (CallMutations.ctor E min_prob base).zero_mutation_matrices_ =
      base.CreateMutationMatrices E 0 ∧
    (CallMutations.ctor E min_prob base).transition_matrices_ = base.transition_matrices_ ∧
    (CallMutations.ctor E min_prob base).oneplus_mutation_matrices_.full =
      container_subtract matSub (CallMutations.ctor E min_prob base).transition_matrices_.full
        (CallMutations.ctor E min_prob base).zero_mutation_matrices_.full ∧
    (∀ i, (CallMutations.ctor E min_prob base).oneplus_mutation_matrices_.full.getD i [] =
      matSub ((CallMutations.ctor E min_prob base).transition_matrices_.full.getD i [])
        ((CallMutations.ctor E min_prob base).zero_mutation_matrices_.full.getD i [])) ∧
    (∀ j, j < E.type_info_table_length →
      (CallMutations.ctor E min_prob base).oneplus_mutation_matrices_.subsets.getD j [] =
        container_subtract matSub
          ((CallMutations.ctor E min_prob base).transition_matrices_.subsets.getD j [])
          ((CallMutations.ctor E min_prob base).zero_mutation_matrices_.subsets.getD j [])) ∧
    (∀ j, j < E.type_info_table_length → ∀ i,
      ((CallMutations.ctor E min_prob base).oneplus_mutation_matrices_.subsets.getD j []).getD i [] =
        matSub
          (((CallMutations.ctor E min_prob base).transition_matrices_.subsets.getD j []).getD i [])
          (((CallMutations.ctor E min_prob base).zero_mutation_matrices_.subsets.getD j []).getD i [])) ∧
    (∀ (A B : TransitionMatrix α) (r c : Nat), r < A.length → r < B.length →
      c < (A.getD r []).length → c < (B.getD r []).length →
      coeff (matSub A B) r c = coeff A r c - coeff B r c) ∧
    (∀ (β : Type) (minus : β → β → β) (a b : List β), a.length = b.length →
      (container_subtract minus a b).length = a.length ∧
      ∀ k (ha : k < a.length) (hb : k < b.length),
        (container_subtract minus a b)[k]? = some (minus a[k] b[k])) := by
  have hsub : ∀ j, j < E.type_info_table_length →
      (CallMutations.ctor E min_prob base).oneplus_mutation_matrices_.subsets.getD j [] =
        container_subtract matSub
          ((CallMutations.ctor E min_prob base).transition_matrices_.subsets.getD j [])
          ((CallMutations.ctor E min_prob base).zero_mutation_matrices_.subsets.getD j []) := by
    intro j hj
    show (forRange 0 E.type_info_table_length _ (List.replicate E.type_info_table_length [])).getD j []
      = _
    rw [forRange_zero_eq_foldl, foldl_set_getD _ _ _ _ _ (by simpa using hj)]
    simp [hj]
    rfl
  refine ⟨rfl, rfl, rfl, fun i => container_subtract_matSub_getD _ _ i, hsub, ?_,
    coeff_matSub, fun β => container_subtract_spec⟩
  intro j hj i
  rw [hsub j hj]
  exact container_subtract_matSub_getD _ _ i

/-- Claim C9, on the small pedigree: the one-or-more-mutation matrix of the
library is the full matrix minus the zero-mutation matrix, entry by entry. -/
theorem ctor_oneplus_is_full_minus_zero_witness :
    (exCall (0 : ℚ)).oneplus_mutation_matrices_.full.getD 1 [] = [[0, 1 / 10], [1 / 10, 0]] ∧
    ((exCall (0 : ℚ)).oneplus_mutation_matrices_.subsets.getD 1 []).getD 1 [] =
      [[0, 1 / 10], [1 / 10, 0]] := by
  have h := ctor_oneplus_is_full_minus_zero (exToy (α := ℚ)) 0 exBase
  refine ⟨?_, ?_⟩
  · show (CallMutations.ctor exToy 0 exBase).oneplus_mutation_matrices_.full.getD 1 [] = _
    rw [h.2.2.2.1 1]
    simp [CallMutations.ctor, LogProbability.CreateMutationMatrices, exToy, exExtern, exBase,
      exMatrices, matSub]
  · show ((CallMutations.ctor exToy 0 exBase).oneplus_mutation_matrices_.subsets.getD 1 []).getD 1 []
      = _
    rw [h.2.2.2.2.2.1 1 (by simp [exToy, exExtern]) 1]
    simp [CallMutations.ctor, LogProbability.CreateMutationMatrices, exToy, exExtern, exBase,
      exMatrices, matSub, forRange, forRange.go]

end ctor_claim

/-! ## The scoring loop -/

section score_lemmas
set_option linter.unusedSectionVars false
variable {α : Type} [LinearOrderedField α]

theorem foldl_update_getElem? {β : Type} (h : β → β) (d : β) (l : List Nat) (hl : l.Nodup)
    (v : List β) (j : Nat) :
    (l.foldl (fun v i => v.set i (h (v.getD i d))) v)[j]? =
      if j ∈ l then v[j]?.map h else v[j]? := by
  induction l generalizing v with
  | nil => simp
  | cons i l ih =>
    have hi : i ∉ l := (List.nodup_cons.mp hl).1
    rw [List.foldl_cons, ih (List.nodup_cons.mp hl).2, List.getElem?_set]
    by_cases hij : i = j
    · subst hij
      by_cases hlen : i < v.length
      · simp [hi, hlen, List.getD_eq_getElem?_getD, List.getElem?_eq_getElem hlen]
      · have : v[i]? = none := List.getElem?_eq_none (not_lt.mp hlen)
        simp [hi, hlen, this]
    · have hji : ¬ j = i := fun e => hij e.symm
      by_cases hjl : j ∈ l <;> simp [hjl, hij, hji]

theorem foldl_update_length {β : Type} (h : β → β) (d : β) (l : List Nat) (v : List β) :
    (l.foldl (fun v i => v.set i (h (v.getD i d))) v).length = v.length := by
  induction l generalizing v with
  | nil => rfl
  | cons i l ih => rw [List.foldl_cons, ih, List.length_set]

theorem scoreStep_total (work : workspace_t α) (one : TransitionMatrixVector α) (i : Nat)
    (s : ScoreState α) :
    (scoreStep work one i s).total = s.total + nodeScore work one i := by
  by_cases h : (maxCoeff (scoreMatrix work one i)).1 > s.max_coeff <;>
    simp [scoreStep, h, nodeScore]

theorem scoreStep_node_mu1p (work : workspace_t α) (one : TransitionMatrixVector α) (i : Nat)
    (s : ScoreState α) :
    (scoreStep work one i s).node_mu1p = s.node_mu1p.set i (nodeScore work one i) := by
  by_cases h : (maxCoeff (scoreMatrix work one i)).1 > s.max_coeff <;>
    simp [scoreStep, h, nodeScore]

theorem foldl_scoreStep_total (work : workspace_t α) (one : TransitionMatrixVector α)
    (l : List Nat) (s : ScoreState α) :
    (l.foldl (fun s i => scoreStep work one i s) s).total =
      s.total + (l.map (nodeScore work one)).sum := by
  induction l generalizing s with
  | nil => simp
  | cons i l ih =>
    rw [List.foldl_cons, ih, scoreStep_total]
    simp [add_assoc]

theorem foldl_scoreStep_node_mu1p (work : workspace_t α) (one : TransitionMatrixVector α)
    (l : List Nat) (s : ScoreState α) :
    (l.foldl (fun s i => scoreStep work one i s) s).node_mu1p =
      l.foldl (fun v i => v.set i (nodeScore work one i)) s.node_mu1p := by
  induction l generalizing s with
  | nil => rfl
  | cons i l ih =>
    rw [List.foldl_cons, ih, scoreStep_node_mu1p]
    rfl

theorem scoreStep_max_coeff (work : workspace_t α) (one : TransitionMatrixVector α) (i : Nat)
    (s : ScoreState α) :
    (scoreStep work one i s).max_coeff = max s.max_coeff (maxCoeff (scoreMatrix work one i)).1 := by
  by_cases h : (maxCoeff (scoreMatrix work one i)).1 > s.max_coeff
  · simp [scoreStep, h, max_eq_right (le_of_lt h)]
  · simp [scoreStep, h, max_eq_left (not_lt.mp h)]

theorem foldl_scoreStep_max_coeff (work : workspace_t α) (one : TransitionMatrixVector α)
    (l : List Nat) (s : ScoreState α) :
    (l.foldl (fun s i => scoreStep work one i s) s).max_coeff =
      l.foldl (fun m i => max m (maxCoeff (scoreMatrix work one i)).1) s.max_coeff := by
  induction l generalizing s with
  | nil => rfl
  | cons i l ih => rw [List.foldl_cons, ih, scoreStep_max_coeff]; rfl

theorem foldl_max_ge_init {β : Type} (f : β → α) (l : List β) (m : α) :
    m ≤ l.foldl (fun m i => max m (f i)) m := by
  induction l generalizing m with
  | nil => exact le_refl m
  | cons i l ih => exact le_trans (le_max_left m (f i)) (ih _)

theorem foldl_max_ge {β : Type} (f : β → α) (l : List β) (m : α) (i : β) (hi : i ∈ l) :
    f i ≤ l.foldl (fun m i => max m (f i)) m := by
  induction l generalizing m with
  | nil => cases hi
  | cons k l ih =>
    rw [List.foldl_cons]
    rcases List.mem_cons.mp hi with h | h
    · subst h
      exact le_trans (le_max_right m (f i)) (foldl_max_ge_init f l _)
    · exact ih _ h

theorem foldl_max_attained {β : Type} (f : β → α) (l : List β) (m : α) :
    l.foldl (fun m i => max m (f i)) m = m ∨
      ∃ i ∈ l, l.foldl (fun m i => max m (f i)) m = f i := by
  induction l generalizing m with
  | nil => exact Or.inl rfl
  | cons k l ih =>
    rw [List.foldl_cons]
    rcases ih (max m (f k)) with h | ⟨i, hi, h⟩
    · rcases max_choice m (f k) with hm | hm
      · exact Or.inl (h.trans hm)
      · exact Or.inr ⟨k, List.mem_cons_self k l, h.trans hm⟩
    · exact Or.inr ⟨i, List.mem_cons_of_mem k hi, h⟩

theorem foldl_maxStep_ge_init (es : List (α × Nat × Nat)) (e : α × Nat × Nat) :
    e.1 ≤ (es.foldl maxStep e).1 := by
  induction es generalizing e with
  | nil => exact le_refl _
  | cons x es ih =>
    rw [List.foldl_cons]
    refine le_trans ?_ (ih _)
    unfold maxStep
    split_ifs with h
    · exact le_of_lt h
    · exact le_refl _

theorem foldl_maxStep_ge (es : List (α × Nat × Nat)) (e x : α × Nat × Nat) (hx : x ∈ es) :
    x.1 ≤ (es.foldl maxStep e).1 := by
  induction es generalizing e with
  | nil => cases hx
  | cons y es ih =>
    rw [List.foldl_cons]
    rcases List.mem_cons.mp hx with h | h
    · subst h
      refine le_trans ?_ (foldl_maxStep_ge_init es _)
      unfold maxStep
      split_ifs with h
      · exact le_refl _
      · exact not_lt.mp h
    · exact ih _ h

theorem foldl_maxStep_mem (es : List (α × Nat × Nat)) (e : α × Nat × Nat) :
    es.foldl maxStep e ∈ e :: es := by
  induction es generalizing e with
  | nil => simp
  | cons y es ih =>
    rw [List.foldl_cons]
    have h := ih (maxStep e y)
    rcases List.mem_cons.mp h with h1 | h1
    · rw [h1]
      unfold maxStep
      split_ifs <;> simp
    · exact List.mem_cons_of_mem _ (List.mem_cons_of_mem _ h1)

/-- Every coefficient is at most the value `maxCoeff` returns. -/
theorem maxCoeff_ge (A : TransitionMatrix α) (x : α × Nat × Nat) (hx : x ∈ entries A) :
    x.1 ≤ (maxCoeff A).1 := by
  unfold maxCoeff
  cases hA : entries A with
  | nil => rw [hA] at hx; cases hx
  | cons e es =>
    rw [hA] at hx
    rcases List.mem_cons.mp hx with h | h
    · rw [h]; exact foldl_maxStep_ge_init es e
    · exact foldl_maxStep_ge es e x h

/-- On a matrix with a coefficient, `maxCoeff` returns one of the coefficients
with its position. -/
theorem maxCoeff_mem (A : TransitionMatrix α) (hA : entries A ≠ []) :
    maxCoeff A ∈ entries A := by
  unfold maxCoeff
  cases h : entries A with
  | nil => exact absurd h hA
  | cons e es => exact foldl_maxStep_mem es e

end score_lemmas

section score_loop_lemmas
set_option linter.unusedSectionVars false
variable {α : Type} [LinearOrderedField α]

theorem scoreLoop_total (work : workspace_t α) (one : TransitionMatrixVector α) (v : List α) :
    (scoreLoop work one v).total = totalScore work one := by
  unfold scoreLoop
  rw [forRange_eq_foldl, foldl_scoreStep_total]
  simp [scoreInit, totalScore]

theorem scoreLoop_node_mu1p (work : workspace_t α) (one : TransitionMatrixVector α)
    (v : List α) :
    (scoreLoop work one v).node_mu1p =
      (List.range' work.founder_nodes.2 (work.num_nodes - work.founder_nodes.2)).foldl
        (fun v i => v.set i (nodeScore work one i))
        (forRange work.founder_nodes.1 work.founder_nodes.2 (fun i v => v.set i 0)
          (resize v work.num_nodes 0)) := by
  unfold scoreLoop
  rw [forRange_eq_foldl, foldl_scoreStep_node_mu1p]
  rfl

theorem scoreLoop_max_coeff (work : workspace_t α) (one : TransitionMatrixVector α)
    (v : List α) :
    (scoreLoop work one v).max_coeff =
      (List.range' work.founder_nodes.2 (work.num_nodes - work.founder_nodes.2)).foldl
        (fun m i => max m (maxCoeff (scoreMatrix work one i)).1) (-1) := by
  unfold scoreLoop
  rw [forRange_eq_foldl, foldl_scoreStep_max_coeff]
  rfl

/-- The vector `node_mu1p` after the normalising loop, entry by entry. -/
theorem node_mu1p_getElem? (work : workspace_t α) (one : TransitionMatrixVector α)
    (v : List α) (t : α) (j : Nat) (hj : j < work.num_nodes) :
    (forRange work.founder_nodes.2 work.num_nodes (fun i v => v.set i (v.getD i 0 / t))
      (scoreLoop work one v).node_mu1p)[j]? =
      some (if work.founder_nodes.2 ≤ j then nodeScore work one j / t
        else if work.founder_nodes.1 ≤ j then 0 else (resize v work.num_nodes 0).getD j 0) := by
  have hlen : j < (resize v work.num_nodes 0).length := by rw [resize_length]; exact hj
  have hB := foldl_update_getElem? (fun x : α => x / t) 0
    (List.range' work.founder_nodes.2 (work.num_nodes - work.founder_nodes.2))
    (List.nodup_range' _ _) (scoreLoop work one v).node_mu1p j
  beta_reduce at hB
  rw [forRange_eq_foldl, hB, scoreLoop_node_mu1p,
    foldl_set_getElem?, forRange_eq_foldl, foldl_set_getElem?, List.getD_eq_getElem?_getD,
    List.getElem?_eq_getElem hlen]
  simp only [List.mem_range'_1, Option.map_some', Option.getD_some]
  by_cases h2 : work.founder_nodes.2 ≤ j
  · have h3 : j < work.founder_nodes.2 + (work.num_nodes - work.founder_nodes.2) := by omega
    simp [h2, h3]
    split_ifs <;> exact ⟨_, rfl⟩
  · by_cases h1 : work.founder_nodes.1 ≤ j
    · have h3 : j < work.founder_nodes.1 + (work.founder_nodes.2 - work.founder_nodes.1) := by
        omega
      simp [h2, h1, h3]
    · simp [h2, h1]

theorem node_mu1p_length (work : workspace_t α) (one : TransitionMatrixVector α)
    (v : List α) (t : α) :
    (forRange work.founder_nodes.2 work.num_nodes (fun i v => v.set i (v.getD i 0 / t))
      (scoreLoop work one v).node_mu1p).length = work.num_nodes := by
  have hB := foldl_update_length (fun x : α => x / t) 0
    (List.range' work.founder_nodes.2 (work.num_nodes - work.founder_nodes.2))
    (scoreLoop work one v).node_mu1p
  beta_reduce at hB
  rw [forRange_eq_foldl, hB, scoreLoop_node_mu1p, foldl_set_length,
    forRange_eq_foldl, foldl_set_length, resize_length]

end score_loop_lemmas

section node_mu1p_claim
variable {α D G : Type} [LinearOrderedField α] [FloorRing α]

omit [FloorRing α] in
theorem node_mu1p_sum (work : workspace_t α) (one : TransitionMatrixVector α) (v : List α)
    (ha : work.founder_nodes.1 = 0) (ht : totalScore work one ≠ 0) :
    (forRange work.founder_nodes.2 work.num_nodes
      (fun i v => v.set i (v.getD i 0 / totalScore work one))
      (scoreLoop work one v).node_mu1p).sum = 1 := by
  have hb : work.founder_nodes.2 ≤ work.num_nodes := by
    by_contra hcon
    apply ht
    have : work.num_nodes - work.founder_nodes.2 = 0 := by omega
    simp [totalScore, this]
  have hfinal : forRange work.founder_nodes.2 work.num_nodes
      (fun i v => v.set i (v.getD i 0 / totalScore work one)) (scoreLoop work one v).node_mu1p =
      (List.range work.num_nodes).map (fun j =>
        if work.founder_nodes.2 ≤ j then nodeScore work one j / totalScore work one else 0) := by
    apply List.ext_getElem?
    intro j
    by_cases hj : j < work.num_nodes
    · rw [node_mu1p_getElem? work one v _ j hj]
      simp [hj, ha]
    · have h1 := node_mu1p_length work one v (totalScore work one)
      rw [List.getElem?_eq_none (by rw [h1]; exact not_lt.mp hj),
        List.getElem?_eq_none (by simp; exact not_lt.mp hj)]
  have hsplit : List.range work.num_nodes =
      List.range' 0 work.founder_nodes.2 ++
        List.range' work.founder_nodes.2 (work.num_nodes - work.founder_nodes.2) := by
    rw [List.range_eq_range']
    have h := List.range'_append 0 work.founder_nodes.2 (work.num_nodes - work.founder_nodes.2) 1
    simp only [Nat.one_mul, Nat.zero_add] at h
    rw [h]
    congr 1
    omega
  have h1 : (List.range' 0 work.founder_nodes.2).map (fun j =>
      if work.founder_nodes.2 ≤ j then nodeScore work one j / totalScore work one else 0) =
      (List.range' 0 work.founder_nodes.2).map (fun _ => (0 : α)) := by
    apply List.map_congr_left
    intro j hj
    have : j < work.founder_nodes.2 := by
      have := (List.mem_range'_1.mp hj).2
      omega
    simp [not_le.mpr this]
  have h2 : (List.range' work.founder_nodes.2 (work.num_nodes - work.founder_nodes.2)).map
      (fun j => if work.founder_nodes.2 ≤ j then nodeScore work one j / totalScore work one
        else 0) =
      ((List.range' work.founder_nodes.2 (work.num_nodes - work.founder_nodes.2)).map
        (nodeScore work one)).map (fun x => x / totalScore work one) := by
    rw [List.map_map]
    apply List.map_congr_left
    intro j hj
    simp [(List.mem_range'_1.mp hj).1]
  rw [hfinal, hsplit, List.map_append, List.sum_append, h1, h2, sum_map_div]
  simp only [List.map_const', List.sum_replicate, smul_zero, zero_add]
  exact div_self ht

theorem populated_node_mu1p (E : Extern α D) (self : CallMutations α G) (depths : D)
    (ref_index : Nat) (st : stats_t α) :
    (self.populated E depths ref_index st).stats.node_mu1p =
      forRange (self.scoringWork E depths ref_index).founder_nodes.2
        (self.scoringWork E depths ref_index).num_nodes
        (fun i v => v.set i (v.getD i 0 /
          totalScore (self.scoringWork E depths ref_index) self.one_mutation_matrices_.full))
        (scoreLoop (self.scoringWork E depths ref_index) self.one_mutation_matrices_.full
          st.node_mu1p).node_mu1p := by
  rw [← scoreLoop_total _ _ st.node_mu1p]
  rfl

/-- Claim C10, as amended.  When `operator()` fills the record, `node_mu1p` has
one entry per node; it is `0` at the founder nodes
(`founder_nodes.first ≤ i < founder_nodes.second`); at a non-founder node `i`
it is the sum of the score matrix `(super[i] outer lower[i]) * one[i]` divided
by the total of these sums over the non-founder nodes; `mu1p` is that total
times `1 - mup`.  When the founders start at node `0` and the total is not
zero, the entries of `node_mu1p` sum to `1`. -/
theorem node_mu1p_normalised (E : Extern α D) (self : CallMutations α G) (depths : D)
    (ref_index : Nat) (st : stats_t α)
    (hret : (self.operator E depths ref_index (some st)).ret = true) :
    ∃ st', (self.operator E depths ref_index (some st)).stats = some st' ∧
      st'.node_mu1p.length = (self.scoringWork E depths ref_index).num_nodes ∧
      (∀ i, nodeScore (self.scoringWork E depths ref_index) self.one_mutation_matrices_.full i =
        matSum (cwiseMul
          (outer ((self.scoringWork E depths ref_index).super.getD i [])
            ((self.scoringWork E depths ref_index).lower.getD i []))
          (self.one_mutation_matrices_.full.getD i []))) ∧
      (∀ i, (self.scoringWork E depths ref_index).founder_nodes.1 ≤ i →
        i < (self.scoringWork E depths ref_index).founder_nodes.2 →
        i < (self.scoringWork E depths ref_index).num_nodes → st'.node_mu1p.getD i 0 = 0) ∧
      (∀ i, (self.scoringWork E depths ref_index).founder_nodes.2 ≤ i →
        i < (self.scoringWork E depths ref_index).num_nodes →
        st'.node_mu1p.getD i 0 =
          nodeScore (self.scoringWork E depths ref_index) self.one_mutation_matrices_.full i /
            totalScore (self.scoringWork E depths ref_index) self.one_mutation_matrices_.full) ∧
      st'.mu1p =
        totalScore (self.scoringWork E depths ref_index) self.one_mutation_matrices_.full *
          (1 - st'.mup) ∧
      ((self.scoringWork E depths ref_index).founder_nodes.1 = 0 →
        totalScore (self.scoringWork E depths ref_index) self.one_mutation_matrices_.full ≠ 0 →
        st'.node_mu1p.sum = 1) := by
  have hnode := populated_node_mu1p E self depths ref_index st
  have hmu1p : (self.populated E depths ref_index st).stats.mu1p =
      totalScore (self.scoringWork E depths ref_index) self.one_mutation_matrices_.full *
        (1 - (self.populated E depths ref_index st).stats.mup) := by
    rw [← scoreLoop_total _ _ st.node_mu1p]
    rfl
  refine ⟨_, operator_stats_of_ret E self depths ref_index st hret, ?_, fun _ => rfl, ?_, ?_,
    hmu1p, ?_⟩
  · rw [hnode]
    exact node_mu1p_length _ _ _ _
  · intro i h1 h2 h3
    rw [hnode, List.getD_eq_getElem?_getD, node_mu1p_getElem? _ _ _ _ i h3]
    simp [not_le.mpr h2, h1]
  · intro i h2 h3
    rw [hnode, List.getD_eq_getElem?_getD, node_mu1p_getElem? _ _ _ _ i h3]
    simp [h2]
  · intro ha ht
    rw [hnode]
    exact node_mu1p_sum _ _ _ ha ht

end node_mu1p_claim

section small_pedigree_scores
set_option linter.unusedSectionVars false
variable {α : Type} [LinearOrderedField α] [FloorRing α]

theorem exCallNoMutation_mutationProbability (log sqrt expm1 log10 : α → α) (ln10 m : α) :
    (exCallNoMutation m).mutationProbability (exExtern log sqrt expm1 log10 ln10) [1, 0] 0 =
      -expm1 0 := by
  simp [exCallNoMutation, CallMutations.mutationProbability, CallMutations.numeratorPeel,
    CallMutations.denominatorPeel, CallMutations.seeded, exExtern, exBase, exGraph, exWork,
    PeelForwards, forRange, forRange.go, forwardStep, forwardRoot, rootSum, exUp, matVec,
    arrayMul, arraySum]

theorem exCallNoMutation_scoringWork (log sqrt expm1 log10 : α → α) (ln10 m : α) :
    ((exCallNoMutation m).scoringWork (exExtern log sqrt expm1 log10 ln10)
      [1, 0] 0).founder_nodes = (0, 1) ∧
    ((exCallNoMutation m).scoringWork (exExtern log sqrt expm1 log10 ln10)
      [1, 0] 0).num_nodes = 2 := by
  constructor <;> rfl

theorem exCallNoMutation_nodeScore (log sqrt expm1 log10 : α → α) (ln10 m : α) :
    nodeScore ((exCallNoMutation m).scoringWork (exExtern log sqrt expm1 log10 ln10) [1, 0] 0)
      (exCallNoMutation m).one_mutation_matrices_.full 1 = 0 := by
  simp [exCallNoMutation, nodeScore, CallMutations.scoringWork, CallMutations.numeratorPeel,
    CallMutations.denominatorPeel, CallMutations.seeded, exExtern, exBase, exGraph, exWork,
    PeelForwards, PeelBackwards, forRange, forRange.go, forDown, forwardStep, forwardRoot,
    backwardRoot, backwardStep, rootSum, exUp, exDown, exTranspose, matVec, arrayMul, arraySum,
    arrayDiv, scoreMatrix, cwiseMul, outer, matSum]

theorem exCallNoMutation_node_mu1p (log sqrt expm1 log10 : α → α) (ln10 m : α) :
    ((exCallNoMutation m).populated (exExtern log sqrt expm1 log10 ln10) [1, 0] 0
      exStats).stats.node_mu1p = [0, 0] := by
  rw [populated_node_mu1p, scoreLoop_node_mu1p]
  simp only [(exCallNoMutation_scoringWork log sqrt expm1 log10 ln10 m).1,
    (exCallNoMutation_scoringWork log sqrt expm1 log10 ln10 m).2]
  simp [forRange, forRange.go, resize, exStats, exCallNoMutation_nodeScore]

theorem exCall_toy_totalScore :
    totalScore ((exCall (1 / 100 : ℚ)).scoringWork exToy [1, 0] 0)
      (exCall (1 / 100 : ℚ)).one_mutation_matrices_.full = 1 / 9 := by
  simp [exCall, totalScore, nodeScore, CallMutations.ctor, LogProbability.CreateMutationMatrices,
    exMatrices, exToy, CallMutations.scoringWork, CallMutations.numeratorPeel,
    CallMutations.denominatorPeel, CallMutations.seeded, exExtern, exBase, exGraph, exWork,
    PeelForwards, PeelBackwards, forRange, forRange.go, forDown, forwardStep, forwardRoot,
    backwardRoot, backwardStep, rootSum, exUp, exDown, exTranspose, matVec, arrayMul, arraySum,
    arrayDiv, resize, exStats, scoreMatrix, cwiseMul, outer, matSum]
  norm_num

theorem exCall_toy_ret :
    ((exCall (1 / 100 : ℚ)).operator exToy [1, 0] 0 (some exStats)).ret = true := by
  rw [operator_ret, exToy, exCall_mutationProbability]
  show (1 / 100 : ℚ) ≤ -((9 / 20 - 1) - (1 / 2 - 1))
  norm_num

end small_pedigree_scores

section node_mu1p_examples

/-- Claim C10, on the small pedigree over the rationals (threshold `1/100`, the
library reads genotype `0`): the record is filled, the founders start at node
`0`, the total score is `1/9`, and `node_mu1p` sums to `1`. -/
theorem node_mu1p_normalised_witness :
    ((exCall (1 / 100 : ℚ)).operator exToy [1, 0] 0 (some exStats)).ret = true ∧
    ((exCall (1 / 100 : ℚ)).scoringWork exToy [1, 0] 0).founder_nodes.1 = 0 ∧
    totalScore ((exCall (1 / 100 : ℚ)).scoringWork exToy [1, 0] 0)
      (exCall (1 / 100 : ℚ)).one_mutation_matrices_.full ≠ 0 ∧
    ∃ st', ((exCall (1 / 100 : ℚ)).operator exToy [1, 0] 0 (some exStats)).stats = some st' ∧
      st'.node_mu1p.sum = 1 := by
  have ht : totalScore ((exCall (1 / 100 : ℚ)).scoringWork exToy [1, 0] 0)
      (exCall (1 / 100 : ℚ)).one_mutation_matrices_.full ≠ 0 := by
    rw [exCall_toy_totalScore]
    norm_num
  obtain ⟨st', h1, _, _, _, _, _, h7⟩ :=
    node_mu1p_normalised exToy (exCall (1 / 100 : ℚ)) [1, 0] 0 exStats exCall_toy_ret
  exact ⟨exCall_toy_ret, rfl, ht, st', h1, h7 rfl ht⟩

/-- Claim C10 as stated fails: on the small pedigree over the reals with a
library that never mutates and threshold `0`, `mup = 0` and the record is
filled; every score is `0`, so the total is `0`, the score of the library is
divided by `0`, and `node_mu1p` does not sum to `1`.  (In IEEE arithmetic the
entry of the library is `0/0`, a NaN.) -/
theorem node_mu1p_zero_total :
    ((exCallNoMutation (0 : ℝ)).operator (exExtern Real.log Real.sqrt (fun x => Real.exp x - 1)
      (fun x => Real.log x / Real.log 10) (Real.log 10)) [1, 0] 0 (some exStats)).ret = true ∧
    ∃ st', ((exCallNoMutation (0 : ℝ)).operator (exExtern Real.log Real.sqrt (fun x => Real.exp x - 1)
      (fun x => Real.log x / Real.log 10) (Real.log 10)) [1, 0] 0 (some exStats)).stats = some st' ∧
      st'.node_mu1p.sum ≠ 1 := by
  have hret : ((exCallNoMutation (0 : ℝ)).operator (exExtern Real.log Real.sqrt (fun x => Real.exp x - 1)
      (fun x => Real.log x / Real.log 10) (Real.log 10)) [1, 0] 0 (some exStats)).ret = true := by
    rw [operator_ret, exCallNoMutation_mutationProbability]
    show (0 : ℝ) ≤ -(Real.exp 0 - 1)
    simp
  refine ⟨hret, _, operator_stats_of_ret _ _ _ _ _ hret, ?_⟩
  rw [exCallNoMutation_node_mu1p]
  simp

end node_mu1p_examples

/-! ## The confidence score -/

section dnq_claim
variable {α D G : Type} [LinearOrderedField α] [FloorRing α]

theorem populated_dnq (E : Extern α D) (self : CallMutations α G) (depths : D)
    (ref_index : Nat) (st : stats_t α) :
    (self.populated E depths ref_index st).stats.dnq =
      lphred E (1 - (scoreLoop (self.scoringWork E depths ref_index)
        self.one_mutation_matrices_.full st.node_mu1p).max_coeff /
          totalScore (self.scoringWork E depths ref_index) self.one_mutation_matrices_.full)
        255 := by
  rw [← scoreLoop_total _ _ st.node_mu1p]
  rfl

theorem lphred_bounds (E : Extern α D) (p : α) (m : Int) (hm : 0 ≤ m) :
    0 ≤ lphred E p m ∧ lphred E p m ≤ m :=
  ⟨le_max_left _ _, max_le hm (min_le_left _ _)⟩

end dnq_claim

/-! ## The dirty flag -/

section dirty_flag
variable {α D G : Type} [LinearOrderedField α] [FloorRing α]

/-- Claim C7.  `PeelBackwards` leaves `dirty_lower = true`.  `PeelForwards`
calls `CleanupFast` exactly when `dirty_lower` is set on entry, and then before
every peeling function.  So a `PeelForwards` on the workspace a `PeelBackwards`
has left starts with `CleanupFast` (as the one in the second half of
`operator()` does), and a `PeelForwards` on a workspace with
`dirty_lower = false` does not call it. -/
theorem dirty_lower_state_machine (E : Extern α D) (g : RelationshipGraph α)
    (work : workspace_t α) (mat mat' : TransitionMatrixVector α) (self : CallMutations α G)
    (scale denominator mup : α) (st : stats_t α) :
    (PeelBackwards E g work mat).work.dirty_lower = true ∧
    (Call.CleanupFast ∈ (PeelForwards E g work mat).calls ↔ work.dirty_lower = true) ∧
    (PeelForwards E g work mat).calls =
      Call.PeelForwards :: ((if work.dirty_lower then [Call.CleanupFast] else []) ++
        (List.range g.peeling_functions_.length).map Call.peeling_function) ∧
    (PeelForwards E g work mat).work =
      { g.peeling_functions_.enum.foldl
          (fun w p => p.2 w (g.family_members_.getD p.1 []) mat)
          (if work.dirty_lower then E.CleanupFast work else work) with
        forward_result := (PeelForwards E g work mat).ret } ∧
    (PeelForwards E g (PeelBackwards E g work mat).work mat').calls =
      Call.PeelForwards :: Call.CleanupFast ::
        (List.range g.peeling_functions_.length).map Call.peeling_function ∧
    (work.dirty_lower = false → Call.CleanupFast ∉ (PeelForwards E g work mat).calls) ∧
    (self.populate E scale denominator mup work st).calls =
      (PeelBackwards E self.graph_ work self.transition_matrices_.full).calls ++
        (Call.PeelForwards :: Call.CleanupFast ::
          (List.range self.graph_.peeling_functions_.length).map Call.peeling_function) ++
        (PeelBackwards E self.graph_
          (PeelForwards E self.graph_
            (PeelBackwards E self.graph_ work self.transition_matrices_.full).work
            self.zero_mutation_matrices_.full).work
          self.zero_mutation_matrices_.full).calls := by
  have hb : ∀ (g : RelationshipGraph α) (work : workspace_t α) (mat : TransitionMatrixVector α),
      (PeelBackwards E g work mat).work.dirty_lower = true := fun _ _ _ => rfl
  have hfb : ∀ (g : RelationshipGraph α) (work : workspace_t α)
      (mat mat' : TransitionMatrixVector α),
      (PeelForwards E g (PeelBackwards E g work mat).work mat').calls =
        Call.PeelForwards :: Call.CleanupFast ::
          (List.range g.peeling_functions_.length).map Call.peeling_function := by
    intro g work mat mat'
    rw [PeelForwards_calls, hb]
    simp
  refine ⟨hb g work mat, ?_, PeelForwards_calls E g work mat, PeelForwards_work E g work mat,
    hfb g work mat mat', ?_, ?_⟩
  · rw [PeelForwards_calls]
    cases work.dirty_lower <;> simp
  · intro h
    rw [PeelForwards_calls, h]
    simp
  · rw [← hfb self.graph_ work self.transition_matrices_.full self.zero_mutation_matrices_.full]
    rfl

end dirty_flag

/-! ## The location of the maximum -/

section location_lemmas
set_option linter.unusedSectionVars false
variable {α : Type} [LinearOrderedField α]

theorem scoreStep_update (work : workspace_t α) (one : TransitionMatrixVector α) (i : Nat)
    (s : ScoreState α) (h : (maxCoeff (scoreMatrix work one i)).1 > s.max_coeff) :
    (scoreStep work one i s).dn_location = i ∧
    ((scoreStep work one i s).max_coeff, (scoreStep work one i s).dn_row,
      (scoreStep work one i s).dn_col) = maxCoeff (scoreMatrix work one i) := by
  simp [scoreStep, h]

theorem scoreStep_keep (work : workspace_t α) (one : TransitionMatrixVector α) (i : Nat)
    (s : ScoreState α) (h : ¬ (maxCoeff (scoreMatrix work one i)).1 > s.max_coeff) :
    (scoreStep work one i s).max_coeff = s.max_coeff ∧
    (scoreStep work one i s).dn_location = s.dn_location ∧
    (scoreStep work one i s).dn_row = s.dn_row ∧
    (scoreStep work one i s).dn_col = s.dn_col := by
  simp [scoreStep, h]

/-- Over an increasing list of nodes the scoring loop either leaves the
maximum and its position as they were, or ends on the first node whose own
maximum is the largest, with the position `maxCoeff` gave for that node. -/
theorem foldl_scoreStep_location (work : workspace_t α) (one : TransitionMatrixVector α)
    (l : List Nat) (hl : l.Pairwise (fun a b => a < b)) (s : ScoreState α) :
    ((l.foldl (fun s i => scoreStep work one i s) s).max_coeff = s.max_coeff ∧
      (l.foldl (fun s i => scoreStep work one i s) s).dn_location = s.dn_location ∧
      (l.foldl (fun s i => scoreStep work one i s) s).dn_row = s.dn_row ∧
      (l.foldl (fun s i => scoreStep work one i s) s).dn_col = s.dn_col) ∨
    ((l.foldl (fun s i => scoreStep work one i s) s).dn_location ∈ l ∧
      ((l.foldl (fun s i => scoreStep work one i s) s).max_coeff,
        (l.foldl (fun s i => scoreStep work one i s) s).dn_row,
        (l.foldl (fun s i => scoreStep work one i s) s).dn_col) =
        maxCoeff (scoreMatrix work one
          (l.foldl (fun s i => scoreStep work one i s) s).dn_location) ∧
      s.max_coeff < (l.foldl (fun s i => scoreStep work one i s) s).max_coeff ∧
      ∀ i ∈ l, i < (l.foldl (fun s i => scoreStep work one i s) s).dn_location →
        (maxCoeff (scoreMatrix work one i)).1 <
          (l.foldl (fun s i => scoreStep work one i s) s).max_coeff) := by
  induction l generalizing s with
  | nil => exact Or.inl ⟨rfl, rfl, rfl, rfl⟩
  | cons k l ih =>
    have hk : ∀ j ∈ l, k < j := (List.pairwise_cons.mp hl).1
    rw [List.foldl_cons]
    have hmax := scoreStep_max_coeff work one k s
    rcases ih (List.pairwise_cons.mp hl).2 (scoreStep work one k s) with
      ⟨h1, h2, h3, h4⟩ | ⟨h1, h2, h3, h4⟩
    · by_cases hup : (maxCoeff (scoreMatrix work one k)).1 > s.max_coeff
      · have hu := scoreStep_update work one k s hup
        right
        rw [h1, h2, h3, h4]
        refine ⟨by rw [hu.1]; exact List.mem_cons_self k l, by rw [hu.1]; exact hu.2, ?_, ?_⟩
        · rw [hmax]
          exact lt_of_lt_of_le hup (le_max_right _ _)
        · intro i hi hlt
          rw [hu.1] at hlt
          rcases List.mem_cons.mp hi with h | h
          · exact absurd (h ▸ hlt) (lt_irrefl _)
          · exact absurd (lt_trans (hk i h) hlt) (lt_irrefl _)
      · have hkeep := scoreStep_keep work one k s hup
        left
        exact ⟨h1.trans hkeep.1, h2.trans hkeep.2.1, h3.trans hkeep.2.2.1,
          h4.trans hkeep.2.2.2⟩
    · right
      refine ⟨List.mem_cons_of_mem k h1, h2, ?_, ?_⟩
      · exact lt_of_le_of_lt (by rw [hmax]; exact le_max_left _ _) h3
      · intro i hi hlt
        rcases List.mem_cons.mp hi with h | h
        · rw [h]
          exact lt_of_le_of_lt (by rw [hmax]; exact le_max_right _ _) h3
        · exact h4 i h hlt

/-- An element of `entries A` is a coefficient of `A` with its position. -/
theorem mem_entries (A : TransitionMatrix α) (e : α × Nat × Nat) (he : e ∈ entries A) :
    e.2.1 < A.length ∧ e.2.2 < (A.getD 0 []).length ∧ e.1 = coeff A e.2.1 e.2.2 := by
  simp only [entries, List.mem_flatMap, List.mem_map, List.mem_range] at he
  obtain ⟨j, hj, i, hi, rfl⟩ := he
  exact ⟨hi, hj, rfl⟩

theorem coeff_cwiseMul_outer (u v : GenotypeArray α) (M : TransitionMatrix α) (r c : Nat)
    (hr : r < u.length) (hc : c < v.length) (hr1 : r < M.length)
    (hc1 : c < (M.getD r []).length) :
    coeff (cwiseMul (outer u v) M) r c = u.getD r 0 * v.getD c 0 * coeff M r c := by
  have hM : M[r]? = some M[r] := List.getElem?_eq_getElem hr1
  have hc2 : c < M[r].length := by
    simpa [List.getD_eq_getElem?_getD, hM] using hc1
  simp [coeff, cwiseMul, outer, List.getD_eq_getElem?_getD, List.getElem?_zipWith, hM,
    List.getElem?_eq_getElem hr, List.getElem?_eq_getElem hc, List.getElem?_eq_getElem hc2]

/-- Inside the three operands, the score matrix holds
`super[i][r] * lower[i][c] * one[i](r, c)`. -/
theorem coeff_scoreMatrix (work : workspace_t α) (one : TransitionMatrixVector α) (i r c : Nat)
    (hr : r < (work.super.getD i []).length) (hc : c < (work.lower.getD i []).length)
    (hr1 : r < (one.getD i []).length) (hc1 : c < ((one.getD i []).getD r []).length) :
    coeff (scoreMatrix work one i) r c =
      (work.super.getD i []).getD r 0 * (work.lower.getD i []).getD c 0 *
        coeff (one.getD i []) r c :=
  coeff_cwiseMul_outer _ _ _ r c hr hc hr1 hc1

end location_lemmas

section location_claim
variable {α : Type} [LinearOrderedField α] [FloorRing α]

omit [FloorRing α] in
theorem scoreLoop_eq_foldl (work : workspace_t α) (one : TransitionMatrixVector α)
    (v : List α) :
    scoreLoop work one v =
      (List.range' work.founder_nodes.2 (work.num_nodes - work.founder_nodes.2)).foldl
        (fun s i => scoreStep work one i s) (scoreInit work v) := by
  unfold scoreLoop
  rw [forRange_eq_foldl]

omit [FloorRing α] in
theorem scoreLoop_entries_le (work : workspace_t α) (one : TransitionMatrixVector α)
    (v : List α) (i : Nat) (h1 : work.founder_nodes.2 ≤ i) (h2 : i < work.num_nodes)
    (e : α × Nat × Nat) (he : e ∈ entries (scoreMatrix work one i)) :
    e.1 ≤ (scoreLoop work one v).max_coeff := by
  rw [scoreLoop_max_coeff]
  refine le_trans (maxCoeff_ge _ e he)
    (foldl_max_ge (fun i => (maxCoeff (scoreMatrix work one i)).1) _ _ i ?_)
  rw [List.mem_range'_1]
  omega

/-- Claim C11.  Take a workspace with a non-founder node, in which every
score matrix of a non-founder node has a coefficient (what Eigen's `maxCoeff`
requires) and all these coefficients exceed `-1`.  After the scoring loop
`max_coeff` is the largest coefficient of the score matrices of the
non-founder nodes: no coefficient exceeds it, and it is the coefficient at
`(dn_row, dn_col)` of the matrix of node `dn_location`.  `dn_location` is a
non-founder node and every coefficient of an earlier non-founder node is
strictly smaller, so it is the first node that reaches the maximum.  The
coefficient at `(row, col)` of the matrix of node `i` is
`super[i][row] * lower[i][col] * one[i](row, col)`.  When `operator()` fills
the record, `stats.dnl` is the label of the `dn_location` its scoring loop
ends with. -/
theorem dn_location_is_first_maximum (work : workspace_t α) (one : TransitionMatrixVector α)
    (v : List α)
    (hnode : work.founder_nodes.2 < work.num_nodes)
    (hne : ∀ i, work.founder_nodes.2 ≤ i → i < work.num_nodes →
      entries (scoreMatrix work one i) ≠ [])
    (hgt : ∀ i, work.founder_nodes.2 ≤ i → i < work.num_nodes →
      ∀ e ∈ entries (scoreMatrix work one i), -1 < e.1) :
    (∀ i, work.founder_nodes.2 ≤ i → i < work.num_nodes →
      ∀ e ∈ entries (scoreMatrix work one i), e.1 ≤ (scoreLoop work one v).max_coeff) ∧
    work.founder_nodes.2 ≤ (scoreLoop work one v).dn_location ∧
    (scoreLoop work one v).dn_location < work.num_nodes ∧
    ((scoreLoop work one v).max_coeff, (scoreLoop work one v).dn_row,
      (scoreLoop work one v).dn_col) ∈
        entries (scoreMatrix work one (scoreLoop work one v).dn_location) ∧
    (scoreLoop work one v).dn_row <
      (scoreMatrix work one (scoreLoop work one v).dn_location).length ∧
    (scoreLoop work one v).dn_col <
      ((scoreMatrix work one (scoreLoop work one v).dn_location).getD 0 []).length ∧
    coeff (scoreMatrix work one (scoreLoop work one v).dn_location)
      (scoreLoop work one v).dn_row (scoreLoop work one v).dn_col =
        (scoreLoop work one v).max_coeff ∧
    (∀ i, work.founder_nodes.2 ≤ i → i < (scoreLoop work one v).dn_location →
      ∀ e ∈ entries (scoreMatrix work one i), e.1 < (scoreLoop work one v).max_coeff) ∧
    (∀ i r c, r < (work.super.getD i []).length → c < (work.lower.getD i []).length →
      r < (one.getD i []).length → c < ((one.getD i []).getD r []).length →
      coeff (scoreMatrix work one i) r c =
        (work.super.getD i []).getD r 0 * (work.lower.getD i []).getD c 0 *
          coeff (one.getD i []) r c) ∧
    (∀ (D G : Type) (E : Extern α D) (self : CallMutations α G) (depths : D) (ref_index : Nat)
      (st : stats_t α), (self.operator E depths ref_index (some st)).ret = true →
      ∃ st', (self.operator E depths ref_index (some st)).stats = some st' ∧
        st'.dnl = self.graph_.labels_.getD
          (scoreLoop (self.scoringWork E depths ref_index) self.one_mutation_matrices_.full
            st.node_mu1p).dn_location "") := by
  have hge := scoreLoop_entries_le work one v
  have hloc := foldl_scoreStep_location work one
    (List.range' work.founder_nodes.2 (work.num_nodes - work.founder_nodes.2))
    (List.pairwise_lt_range' _ _) (scoreInit work v)
  rw [← scoreLoop_eq_foldl] at hloc
  have hfirst : -1 < (scoreLoop work one v).max_coeff := by
    have hm := maxCoeff_mem _ (hne work.founder_nodes.2 (le_refl _) hnode)
    exact lt_of_lt_of_le (hgt _ (le_refl _) hnode _ hm) (hge _ (le_refl _) hnode _ hm)
  have hinit : (scoreInit work v).max_coeff = -1 := rfl
  rcases hloc with ⟨h1, _⟩ | ⟨hmem, htriple, _, hsmall⟩
  · rw [h1, hinit] at hfirst
    exact absurd hfirst (lt_irrefl _)
  · have hk := List.mem_range'_1.mp hmem
    have hk2 : (scoreLoop work one v).dn_location < work.num_nodes := by omega
    have hin : ((scoreLoop work one v).max_coeff, (scoreLoop work one v).dn_row,
        (scoreLoop work one v).dn_col) ∈
          entries (scoreMatrix work one (scoreLoop work one v).dn_location) := by
      rw [htriple]
      exact maxCoeff_mem _ (hne _ hk.1 hk2)
    have hpos := mem_entries _ _ hin
    refine ⟨hge, hk.1, hk2, hin, hpos.1, hpos.2.1, hpos.2.2.symm, ?_,
      fun i r c => coeff_scoreMatrix work one i r c, ?_⟩
    · intro i hi1 hi2 e he
      have himem : i ∈ List.range' work.founder_nodes.2
          (work.num_nodes - work.founder_nodes.2) := by
        rw [List.mem_range'_1]
        omega
      exact lt_of_le_of_lt (maxCoeff_ge _ e he) (hsmall i himem hi2)
    · intro D G E self depths ref_index st hret
      exact ⟨_, operator_stats_of_ret E self depths ref_index st hret, rfl⟩

end location_claim

section location_examples

theorem exCall_toy_scoringWork :
    ((exCall (1 / 100 : ℚ)).scoringWork exToy [1, 0] 0).founder_nodes = (0, 1) ∧
    ((exCall (1 / 100 : ℚ)).scoringWork exToy [1, 0] 0).num_nodes = 2 := by
  constructor <;> rfl

theorem exCall_toy_entries :
    entries (scoreMatrix ((exCall (1 / 100 : ℚ)).scoringWork exToy [1, 0] 0)
      (exCall (1 / 100 : ℚ)).one_mutation_matrices_.full 1) =
      [(0, 0, 0), (1 / 9, 1, 0), (0, 0, 1), (0, 1, 1)] := by
  simp [entries, coeff, List.range_succ, exCall, CallMutations.ctor,
    LogProbability.CreateMutationMatrices, exMatrices, exToy, CallMutations.scoringWork,
    CallMutations.numeratorPeel, CallMutations.denominatorPeel, CallMutations.seeded, exExtern,
    exBase, exGraph, exWork, PeelForwards, PeelBackwards, forRange, forRange.go, forDown,
    forwardStep, forwardRoot, backwardRoot, backwardStep, rootSum, exUp, exDown, exTranspose,
    matVec, arrayMul, arraySum, arrayDiv, scoreMatrix, cwiseMul, outer]
  norm_num

/-- Claim C11, on the small pedigree over the rationals (threshold `1/100`, the
library reads genotype `0`): the library, node `1`, is the one non-founder
node; its score matrix has the coefficients `0, 1/9, 0, 0`, all above `-1`;
the scoring loop ends with `dn_location = 1` and the record carries the label
of the library. -/
theorem dn_location_is_first_maximum_witness :
    ((exCall (1 / 100 : ℚ)).scoringWork exToy [1, 0] 0).founder_nodes.2 <
      ((exCall (1 / 100 : ℚ)).scoringWork exToy [1, 0] 0).num_nodes ∧
    (scoreLoop ((exCall (1 / 100 : ℚ)).scoringWork exToy [1, 0] 0)
      (exCall (1 / 100 : ℚ)).one_mutation_matrices_.full []).dn_location = 1 ∧
    ∃ st', ((exCall (1 / 100 : ℚ)).operator exToy [1, 0] 0 (some exStats)).stats = some st' ∧
      st'.dnl = "LB-1" := by
  have hw := exCall_toy_scoringWork
  have hnode : ((exCall (1 / 100 : ℚ)).scoringWork exToy [1, 0] 0).founder_nodes.2 <
      ((exCall (1 / 100 : ℚ)).scoringWork exToy [1, 0] 0).num_nodes := by
    rw [hw.1, hw.2]
    decide
  have hone : ∀ i, ((exCall (1 / 100 : ℚ)).scoringWork exToy [1, 0] 0).founder_nodes.2 ≤ i →
      i < ((exCall (1 / 100 : ℚ)).scoringWork exToy [1, 0] 0).num_nodes → i = 1 := by
    intro i h1 h2
    rw [hw.1] at h1
    rw [hw.2] at h2
    omega
  have h := dn_location_is_first_maximum
    ((exCall (1 / 100 : ℚ)).scoringWork exToy [1, 0] 0)
    (exCall (1 / 100 : ℚ)).one_mutation_matrices_.full [] hnode
    (fun i h1 h2 => by rw [hone i h1 h2, exCall_toy_entries]; simp)
    (fun i h1 h2 e he => by
      rw [hone i h1 h2, exCall_toy_entries] at he
      simp only [List.mem_cons, List.mem_singleton, List.not_mem_nil, or_false] at he
      rcases he with rfl | rfl | rfl | rfl <;> norm_num)
  have hloc := hone _ h.2.1 h.2.2.1
  obtain ⟨st', hst, hdnl⟩ := h.2.2.2.2.2.2.2.2.2 _ Unit exToy (exCall (1 / 100 : ℚ)) [1, 0] 0
    exStats exCall_toy_ret
  refine ⟨hnode, hloc, st', hst, ?_⟩
  have hloc2 : (scoreLoop ((exCall (1 / 100 : ℚ)).scoringWork exToy [1, 0] 0)
      (exCall (1 / 100 : ℚ)).one_mutation_matrices_.full exStats.node_mu1p).dn_location = 1 := hloc
  rw [hdnl, hloc2]
  rfl

end location_examples

/-! ## The threshold test with the special values of a `double` -/

section ieee_lemmas
set_option linter.unusedSectionVars false
variable {α D G : Type} [LinearOrderedField α]

/-- Against a number, `a < m` is false exactly when `a` is a NaN or `a >= m`. -/
theorem Dbl.lt_num_eq_false_iff (a : Dbl α) (m : α) :
    a.lt (.num m) = false ↔ a = .nan ∨ a.ge (.num m) = true := by
  cases a <;> simp [Dbl.lt, Dbl.ge, not_lt]

theorem operatorIEEE_ret (E : Extern α D) (self : CallMutations α G) (depths : D)
    (ref_index : Nat) (b : Bool) :
    (self.operatorIEEE E depths ref_index b).ret = true ↔
      (self.mupIEEE E depths ref_index).lt (.num self.min_prob_) = false := by
  unfold CallMutations.operatorIEEE
  cases h : (self.mupIEEE E depths ref_index).lt (.num self.min_prob_) <;> cases b <;> simp [h]

theorem operatorIEEE_mup (E : Extern α D) (self : CallMutations α G) (depths : D)
    (ref_index : Nat)
    (h : (self.mupIEEE E depths ref_index).lt (.num self.min_prob_) = false) :
    (self.operatorIEEE E depths ref_index false).mup = some (self.mupIEEE E depths ref_index) := by
  unfold CallMutations.operatorIEEE
  simp [h]

/-- Over positive root sums the root loop meets no special value. -/
theorem foldl_logIEEE_num (E : Extern α D) (work : workspace_t α) (l : List Nat) (a : α)
    (h : ∀ r ∈ l, 0 < rootSum work r) :
    l.foldl (fun (ret : Dbl α) r => ret.add (logIEEE E (rootSum work r))) (Dbl.num a) =
      Dbl.num (l.foldl (forwardRoot E work) a) := by
  induction l generalizing a with
  | nil => rfl
  | cons r l ih =>
    have hr := h r (List.mem_cons_self r l)
    have hlog : logIEEE E (rootSum work r) = .num (E.log (rootSum work r)) := by
      simp [logIEEE, not_lt.mpr (le_of_lt hr), ne_of_gt hr]
    rw [List.foldl_cons, List.foldl_cons, hlog]
    exact ih _ (fun q hq => h q (List.mem_cons_of_mem r hq))

theorem forwardResultIEEE_num (E : Extern α D) (g : RelationshipGraph α) (work : workspace_t α)
    (mat : TransitionMatrixVector α)
    (h : ∀ r ∈ g.roots_, 0 < rootSum (PeelForwards E g work mat).work r) :
    forwardResultIEEE E g (PeelForwards E g work mat).work =
      .num (PeelForwards E g work mat).ret := by
  unfold forwardResultIEEE
  rw [foldl_logIEEE_num E _ _ _ h]
  rfl

theorem mupIEEE_of_num (E : Extern α D) (self : CallMutations α G) (depths : D)
    (ref_index : Nat) (x y : α) (hx : self.numeratorIEEE E depths ref_index = .num x)
    (hy : self.denominatorIEEE E depths ref_index = .num y) :
    self.mupIEEE E depths ref_index = .num (-E.expm1 (x - y)) := by
  simp [CallMutations.mupIEEE, hx, hy, Dbl.sub, Dbl.neg, Dbl.add, expm1IEEE, sub_eq_add_neg]

theorem mupIEEE_of_negInf (E : Extern α D) (self : CallMutations α G) (depths : D)
    (ref_index : Nat) (hx : self.numeratorIEEE E depths ref_index = .negInf)
    (hy : self.denominatorIEEE E depths ref_index = .negInf) :
    self.mupIEEE E depths ref_index = .nan := by
  simp [CallMutations.mupIEEE, hx, hy, Dbl.sub, Dbl.neg, Dbl.add, expm1IEEE]

end ieee_lemmas

section small_pedigree_ieee
set_option linter.unusedSectionVars false
variable {α : Type} [LinearOrderedField α]

theorem exCall_rootSums (log sqrt expm1 log10 : α → α) (ln10 m : α) :
    rootSum ((exCall m).numeratorPeel (exExtern log sqrt expm1 log10 ln10) [1, 0] 0).work 0 =
      9 / 20 ∧
    rootSum ((exCall m).denominatorPeel (exExtern log sqrt expm1 log10 ln10) [1, 0] 0).work 0 =
      1 / 2 := by
  constructor
  · simp [exCall, CallMutations.numeratorPeel, CallMutations.seeded, CallMutations.ctor,
      LogProbability.CreateMutationMatrices, exToy, exExtern, exBase, exGraph, exWork,
      exMatrices, PeelForwards, forRange, forRange.go, forwardStep, forwardRoot, rootSum, exUp,
      matVec, arrayMul, arraySum]
    norm_num
  · simp [exCall, CallMutations.numeratorPeel, CallMutations.denominatorPeel,
      CallMutations.seeded, CallMutations.ctor, LogProbability.CreateMutationMatrices, exToy,
      exExtern, exBase, exGraph, exWork, exMatrices, PeelForwards, forRange, forRange.go,
      forwardStep, forwardRoot, rootSum, exUp, matVec, arrayMul, arraySum]
    norm_num

theorem exCall_zero_depths_rootSums (log sqrt expm1 log10 : α → α) (ln10 m : α) :
    rootSum ((exCall m).numeratorPeel (exExtern log sqrt expm1 log10 ln10) [0, 0] 0).work 0 =
      0 ∧
    rootSum ((exCall m).denominatorPeel (exExtern log sqrt expm1 log10 ln10) [0, 0] 0).work 0 =
      0 := by
  constructor
  · simp [exCall, CallMutations.numeratorPeel, CallMutations.seeded, CallMutations.ctor,
      LogProbability.CreateMutationMatrices, exToy, exExtern, exBase, exGraph, exWork,
      exMatrices, PeelForwards, forRange, forRange.go, forwardStep, forwardRoot, rootSum, exUp,
      matVec, arrayMul, arraySum]
  · simp [exCall, CallMutations.numeratorPeel, CallMutations.denominatorPeel,
      CallMutations.seeded, CallMutations.ctor, LogProbability.CreateMutationMatrices, exToy,
      exExtern, exBase, exGraph, exWork, exMatrices, PeelForwards, forRange, forRange.go,
      forwardStep, forwardRoot, rootSum, exUp, matVec, arrayMul, arraySum]

theorem exCall_roots (m : α) : (exCall m).graph_.roots_ = [0] := rfl

/-- With genotype likelihoods that are all `0` both forward results of the
small pedigree are `-inf` and `mup` is a NaN. -/
theorem exCall_zero_depths_mupIEEE (log sqrt expm1 log10 : α → α) (ln10 m : α) :
    (exCall m).mupIEEE (exExtern log sqrt expm1 log10 ln10) [0, 0] 0 = .nan := by
  have h := exCall_zero_depths_rootSums log sqrt expm1 log10 ln10 m
  apply mupIEEE_of_negInf
  · simp [CallMutations.numeratorIEEE, forwardResultIEEE, exCall_roots, h.1, logIEEE, Dbl.add]
  · simp [CallMutations.denominatorIEEE, forwardResultIEEE, exCall_roots, h.2, logIEEE, Dbl.add]

theorem exCall_rootSums_pos (log sqrt expm1 log10 : α → α) (ln10 m : α) :
    (∀ r ∈ (exCall m).graph_.roots_, 0 < rootSum
      ((exCall m).numeratorPeel (exExtern log sqrt expm1 log10 ln10) [1, 0] 0).work r) ∧
    (∀ r ∈ (exCall m).graph_.roots_, 0 < rootSum
      ((exCall m).denominatorPeel (exExtern log sqrt expm1 log10 ln10) [1, 0] 0).work r) := by
  have h := exCall_rootSums log sqrt expm1 log10 ln10 m
  constructor
  · intro r hr
    rw [exCall_roots, List.mem_singleton] at hr
    rw [hr, h.1]
    norm_num
  · intro r hr
    rw [exCall_roots, List.mem_singleton] at hr
    rw [hr, h.2]
    norm_num

/-- With a library that reads genotype `0` both forward results of the small
pedigree are numbers: `log (9/20)` and `log (1/2)`. -/
theorem exCall_mupIEEE (log sqrt expm1 log10 : α → α) (ln10 m : α) :
    (exCall m).mupIEEE (exExtern log sqrt expm1 log10 ln10) [1, 0] 0 =
      .num (-expm1 (log (9 / 20) - log (1 / 2))) := by
  have h := exCall_rootSums_pos log sqrt expm1 log10 ln10 m
  have h1 : (exCall m).numeratorIEEE (exExtern log sqrt expm1 log10 ln10) [1, 0] 0 =
      .num (log (9 / 20)) := by
    rw [← exCall_numerator log sqrt expm1 log10 ln10 m]
    exact forwardResultIEEE_num _ _ _ _ h.1
  have h2 : (exCall m).denominatorIEEE (exExtern log sqrt expm1 log10 ln10) [1, 0] 0 =
      .num (log (1 / 2)) := by
    rw [← exCall_denominator log sqrt expm1 log10 ln10 m]
    exact forwardResultIEEE_num _ _ _ _ h.2
  exact mupIEEE_of_num (exExtern log sqrt expm1 log10 ln10) _ _ _ _ _ h1 h2

end small_pedigree_ieee

section ieee_claims
variable {D G : Type}

theorem exCall_real_mupIEEE (m : ℝ) :
    (exCall m).mupIEEE (exExtern Real.log Real.sqrt (fun x => Real.exp x - 1)
      (fun x => Real.log x / Real.log 10) (Real.log 10)) [1, 0] 0 = Dbl.num (1 / 10) := by
  rw [exCall_mupIEEE]
  congr 1
  show -(Real.exp (Real.log (9 / 20) - Real.log (1 / 2)) - 1) = 1 / 10
  rw [← real_one_sub_exp_small]
  ring

/-- Claim C1, as amended.  Over the reals, with `expm1 x = exp x - 1` and with
the special values of a `double`: for all depths, every reference index, every
workspace and every threshold `min_prob_`, `operator()` returns true exactly
when `mup < min_prob_` is false, that is when `mup >= min_prob_` or `mup` is a
NaN; the boolean is the same for a null and a non-null `stats`.  Here
`mup = -expm1 (numerator - denominator)` for the two forward results: it is
`1 - exp (numerator - denominator)` when both are numbers and a NaN when both
are `-inf`.  When all root sums are positive no special value occurs, `mup` is
the number `1 - exp (numerator - denominator)` of the two `PeelForwards`
results, `operator()` returns true exactly when `min_prob_ ≤ mup`, and the
boolean is the one the embedding over numbers returns. -/
theorem operator_returns_true_iff_not_below (E : Extern ℝ D) (self : CallMutations ℝ G)
    (depths : D) (ref_index : Nat) (hexpm1 : ∀ x, E.expm1 x = Real.exp x - 1) :
    (∀ b, (self.operatorIEEE E depths ref_index b).ret = true ↔
      (self.mupIEEE E depths ref_index = Dbl.nan ∨
        (self.mupIEEE E depths ref_index).ge (Dbl.num self.min_prob_) = true)) ∧
    (self.operatorIEEE E depths ref_index true).ret =
      (self.operatorIEEE E depths ref_index false).ret ∧
    self.numeratorIEEE E depths ref_index =
      forwardResultIEEE E self.graph_
        (PeelForwards E self.graph_ (self.seeded E depths ref_index)
          self.zero_mutation_matrices_.full).work ∧
    self.denominatorIEEE E depths ref_index =
      forwardResultIEEE E self.graph_
        (PeelForwards E self.graph_ (self.numeratorPeel E depths ref_index).work
          self.transition_matrices_.full).work ∧
    (∀ x y, self.numeratorIEEE E depths ref_index = Dbl.num x →
      self.denominatorIEEE E depths ref_index = Dbl.num y →
      self.mupIEEE E depths ref_index = Dbl.num (1 - Real.exp (x - y))) ∧
    (self.numeratorIEEE E depths ref_index = Dbl.negInf →
      self.denominatorIEEE E depths ref_index = Dbl.negInf →
      self.mupIEEE E depths ref_index = Dbl.nan) ∧
    ((∀ r ∈ self.graph_.roots_, 0 < rootSum (self.numeratorPeel E depths ref_index).work r) →
      (∀ r ∈ self.graph_.roots_, 0 < rootSum (self.denominatorPeel E depths ref_index).work r) →
      self.mupIEEE E depths ref_index =
        Dbl.num (1 - Real.exp ((self.numeratorPeel E depths ref_index).ret -
          (self.denominatorPeel E depths ref_index).ret)) ∧
      (∀ b, (self.operatorIEEE E depths ref_index b).ret = true ↔
        self.min_prob_ ≤ 1 - Real.exp ((self.numeratorPeel E depths ref_index).ret -
          (self.denominatorPeel E depths ref_index).ret)) ∧
      ∀ b stats, (self.operatorIEEE E depths ref_index b).ret =
        (self.operator E depths ref_index stats).ret) := by
  have hnum : ∀ x y, self.numeratorIEEE E depths ref_index = Dbl.num x →
      self.denominatorIEEE E depths ref_index = Dbl.num y →
      self.mupIEEE E depths ref_index = Dbl.num (1 - Real.exp (x - y)) := by
    intro x y hx hy
    rw [mupIEEE_of_num E self depths ref_index x y hx hy, hexpm1]
    congr 1
    ring
  have hiff : ∀ b, (self.operatorIEEE E depths ref_index b).ret = true ↔
      (self.mupIEEE E depths ref_index = Dbl.nan ∨
        (self.mupIEEE E depths ref_index).ge (Dbl.num self.min_prob_) = true) := by
    intro b
    rw [operatorIEEE_ret, Dbl.lt_num_eq_false_iff]
  refine ⟨hiff, ?_, rfl, rfl, hnum, mupIEEE_of_negInf E self depths ref_index, ?_⟩
  · rw [Bool.eq_iff_iff, hiff true, hiff false]
  · intro h1 h2
    have hx := forwardResultIEEE_num E self.graph_ (self.seeded E depths ref_index)
      self.zero_mutation_matrices_.full h1
    have hy := forwardResultIEEE_num E self.graph_ (self.numeratorPeel E depths ref_index).work
      self.transition_matrices_.full h2
    have hm := hnum _ _ hx hy
    have hret : ∀ b, (self.operatorIEEE E depths ref_index b).ret = true ↔
        self.min_prob_ ≤ 1 - Real.exp ((self.numeratorPeel E depths ref_index).ret -
          (self.denominatorPeel E depths ref_index).ret) := by
      intro b
      rw [operatorIEEE_ret]
      have hm2 : self.mupIEEE E depths ref_index =
          Dbl.num (1 - Real.exp ((self.numeratorPeel E depths ref_index).ret -
            (self.denominatorPeel E depths ref_index).ret)) := hm
      rw [hm2]
      simp [Dbl.lt]
    refine ⟨hm, hret, ?_⟩
    intro b stats
    rw [Bool.eq_iff_iff, hret b, operator_ret,
      mutationProbability_real E self depths ref_index hexpm1]

/-- Claim C1, on the small pedigree over the reals (threshold `1/100`, the
library reads genotype `0`): the root sums are `9/20` and `1/2`, `mup` is the
number `1/10`, and `operator()` returns true with and without a record. -/
theorem operator_returns_true_iff_not_below_witness :
    (∀ x : ℝ, (exExtern Real.log Real.sqrt (fun x => Real.exp x - 1)
      (fun x => Real.log x / Real.log 10) (Real.log 10)).expm1 x = Real.exp x - 1) ∧
    (exCall (1 / 100 : ℝ)).mupIEEE (exExtern Real.log Real.sqrt (fun x => Real.exp x - 1)
      (fun x => Real.log x / Real.log 10) (Real.log 10)) [1, 0] 0 = Dbl.num (1 / 10) ∧
    ((exCall (1 / 100 : ℝ)).operatorIEEE (exExtern Real.log Real.sqrt (fun x => Real.exp x - 1)
      (fun x => Real.log x / Real.log 10) (Real.log 10)) [1, 0] 0 true).ret = true ∧
    ((exCall (1 / 100 : ℝ)).operatorIEEE (exExtern Real.log Real.sqrt (fun x => Real.exp x - 1)
      (fun x => Real.log x / Real.log 10) (Real.log 10)) [1, 0] 0 false).ret = true := by
  have h := operator_returns_true_iff_not_below (exExtern Real.log Real.sqrt (fun x => Real.exp x - 1)
      (fun x => Real.log x / Real.log 10) (Real.log 10)) (exCall (1 / 100 : ℝ)) [1, 0] 0
    (fun _ => rfl)
  have hge : ((exCall (1 / 100 : ℝ)).mupIEEE (exExtern Real.log Real.sqrt (fun x => Real.exp x - 1)
      (fun x => Real.log x / Real.log 10) (Real.log 10)) [1, 0] 0).ge
      (Dbl.num (exCall (1 / 100 : ℝ)).min_prob_) = true := by
    rw [exCall_real_mupIEEE]
    show decide ((1 / 100 : ℝ) ≤ 1 / 10) = true
    rw [decide_eq_true_iff]
    norm_num
  exact ⟨fun _ => rfl, exCall_real_mupIEEE _, (h.1 true).mpr (Or.inr hge),
    (h.1 false).mpr (Or.inr hge)⟩

/-- Claim C1 as stated fails: on the small pedigree over the reals with
threshold `1/2`, a library whose genotype likelihoods are all `0` gives the
root sum `0` under both matrix sets, so `numerator = denominator = -inf` and
`mup` is a NaN.  `mup < min_prob_` is false and `operator()` returns true, for
a null and for a non-null `stats`, while `mup >= min_prob_` is false. -/
theorem operator_returns_true_on_nan :
    (exCall (1 / 2 : ℝ)).mupIEEE (exExtern Real.log Real.sqrt (fun x => Real.exp x - 1)
      (fun x => Real.log x / Real.log 10) (Real.log 10)) [0, 0] 0 = Dbl.nan ∧
    ((exCall (1 / 2 : ℝ)).operatorIEEE (exExtern Real.log Real.sqrt (fun x => Real.exp x - 1)
      (fun x => Real.log x / Real.log 10) (Real.log 10)) [0, 0] 0 true).ret = true ∧
    ((exCall (1 / 2 : ℝ)).operatorIEEE (exExtern Real.log Real.sqrt (fun x => Real.exp x - 1)
      (fun x => Real.log x / Real.log 10) (Real.log 10)) [0, 0] 0 false).ret = true ∧
    ((exCall (1 / 2 : ℝ)).mupIEEE (exExtern Real.log Real.sqrt (fun x => Real.exp x - 1)
      (fun x => Real.log x / Real.log 10) (Real.log 10)) [0, 0] 0).ge
      (Dbl.num (exCall (1 / 2 : ℝ)).min_prob_) = false := by
  have hnan := exCall_zero_depths_mupIEEE Real.log Real.sqrt (fun x => Real.exp x - 1)
    (fun x => Real.log x / Real.log 10) (Real.log 10) (1 / 2 : ℝ)
  refine ⟨hnan, ?_, ?_, ?_⟩
  · rw [operatorIEEE_ret, hnan]
    rfl
  · rw [operatorIEEE_ret, hnan]
    rfl
  · rw [hnan]
    rfl

/-- Claim C5, as amended.  Over the reals, with `expm1 x = exp x - 1` and with
the special values of a `double`: when `operator()` fills the record, the
value written to `stats->mup` is `mup = -expm1 (numerator - denominator)`; it
is a NaN or a number of `[min_prob_, 1]`, hence a NaN or a number of `[0, 1]`
when `min_prob_ ≥ 0`.  It is `1 - exp (numerator - denominator)` when both
forward results are numbers, then at most `1` and non-negative exactly when
`numerator ≤ denominator`, and it is a NaN when both are `-inf`.  When all root sums are positive it is
the number the embedding over numbers stores in `stats.mup`. -/
theorem populated_mup_nan_or_bounded (E : Extern ℝ D) (self : CallMutations ℝ G)
    (depths : D) (ref_index : Nat) (hexpm1 : ∀ x, E.expm1 x = Real.exp x - 1)
    (hpop : (self.operatorIEEE E depths ref_index false).ret = true) :
    (self.operatorIEEE E depths ref_index false).mup = some (self.mupIEEE E depths ref_index) ∧
    (self.mupIEEE E depths ref_index = Dbl.nan ∨
      ∃ v, self.mupIEEE E depths ref_index = Dbl.num v ∧ self.min_prob_ ≤ v ∧ v ≤ 1) ∧
    (0 ≤ self.min_prob_ → self.mupIEEE E depths ref_index = Dbl.nan ∨
      ∃ v, self.mupIEEE E depths ref_index = Dbl.num v ∧ 0 ≤ v ∧ v ≤ 1) ∧
    (∀ x y, self.numeratorIEEE E depths ref_index = Dbl.num x →
      self.denominatorIEEE E depths ref_index = Dbl.num y →
      self.mupIEEE E depths ref_index = Dbl.num (1 - Real.exp (x - y)) ∧
      (0 ≤ 1 - Real.exp (x - y) ↔ x ≤ y) ∧ 1 - Real.exp (x - y) ≤ 1) ∧
    (self.numeratorIEEE E depths ref_index = Dbl.negInf →
      self.denominatorIEEE E depths ref_index = Dbl.negInf →
      self.mupIEEE E depths ref_index = Dbl.nan) ∧
    ((∀ r ∈ self.graph_.roots_, 0 < rootSum (self.numeratorPeel E depths ref_index).work r) →
      (∀ r ∈ self.graph_.roots_, 0 < rootSum (self.denominatorPeel E depths ref_index).work r) →
      ∀ st, ∃ st', (self.operator E depths ref_index (some st)).stats = some st' ∧
        self.mupIEEE E depths ref_index = Dbl.num st'.mup) := by
  have hlt := (operatorIEEE_ret E self depths ref_index false).mp hpop
  have hmain : self.mupIEEE E depths ref_index = Dbl.nan ∨
      ∃ v, self.mupIEEE E depths ref_index = Dbl.num v ∧ self.min_prob_ ≤ v ∧ v ≤ 1 := by
    have hm : self.mupIEEE E depths ref_index =
        (expm1IEEE E ((self.numeratorIEEE E depths ref_index).sub
          (self.denominatorIEEE E depths ref_index))).neg := rfl
    rw [hm] at hlt ⊢
    cases hs : (self.numeratorIEEE E depths ref_index).sub
        (self.denominatorIEEE E depths ref_index) with
    | num x =>
      rw [hs] at hlt
      right
      refine ⟨-E.expm1 x, rfl, ?_, ?_⟩
      · simpa [expm1IEEE, Dbl.neg, Dbl.lt] using hlt
      · rw [hexpm1]
        linarith [Real.exp_pos x]
    | posInf =>
      rw [hs] at hlt
      simp [expm1IEEE, Dbl.neg, Dbl.lt] at hlt
    | negInf =>
      rw [hs] at hlt
      right
      refine ⟨- -1, rfl, ?_, by norm_num⟩
      simpa [expm1IEEE, Dbl.neg, Dbl.lt] using hlt
    | nan => exact Or.inl rfl
  refine ⟨operatorIEEE_mup E self depths ref_index hlt, hmain, ?_, ?_,
    mupIEEE_of_negInf E self depths ref_index, ?_⟩
  · intro h0
    rcases hmain with h | ⟨v, hv, h1, h2⟩
    · exact Or.inl h
    · exact Or.inr ⟨v, hv, le_trans h0 h1, h2⟩
  · intro x y hx hy
    refine ⟨?_, ?_, ?_⟩
    · rw [mupIEEE_of_num E self depths ref_index x y hx hy, hexpm1]
      congr 1
      ring
    · rw [sub_nonneg, Real.exp_le_one_iff, sub_nonpos]
    · linarith [Real.exp_pos (x - y)]
  · intro h1 h2 st
    have hx := forwardResultIEEE_num E self.graph_ (self.seeded E depths ref_index)
      self.zero_mutation_matrices_.full h1
    have hy := forwardResultIEEE_num E self.graph_ (self.numeratorPeel E depths ref_index).work
      self.transition_matrices_.full h2
    have hm : self.mupIEEE E depths ref_index =
        Dbl.num (self.mutationProbability E depths ref_index) :=
      mupIEEE_of_num E self depths ref_index _ _ hx hy
    have hret : (self.operator E depths ref_index (some st)).ret = true := by
      rw [operator_ret]
      rw [hm] at hlt
      simpa [Dbl.lt] using hlt
    exact ⟨_, operator_stats_of_ret E self depths ref_index st hret, hm⟩

/-- Claim C5, on the small pedigree over the reals (threshold `1/100`, the
library reads genotype `0`): the record is filled and the value written to
`stats->mup` is the number `1/10`. -/
theorem populated_mup_nan_or_bounded_witness :
    (∀ x : ℝ, (exExtern Real.log Real.sqrt (fun x => Real.exp x - 1)
      (fun x => Real.log x / Real.log 10) (Real.log 10)).expm1 x = Real.exp x - 1) ∧
    ((exCall (1 / 100 : ℝ)).operatorIEEE (exExtern Real.log Real.sqrt (fun x => Real.exp x - 1)
      (fun x => Real.log x / Real.log 10) (Real.log 10)) [1, 0] 0 false).ret = true ∧
    ((exCall (1 / 100 : ℝ)).operatorIEEE (exExtern Real.log Real.sqrt (fun x => Real.exp x - 1)
      (fun x => Real.log x / Real.log 10) (Real.log 10)) [1, 0] 0 false).mup = some (Dbl.num (1 / 10)) := by
  have hpop : ((exCall (1 / 100 : ℝ)).operatorIEEE (exExtern Real.log Real.sqrt (fun x => Real.exp x - 1)
      (fun x => Real.log x / Real.log 10) (Real.log 10)) [1, 0] 0 false).ret = true := by
    rw [operatorIEEE_ret, exCall_real_mupIEEE]
    show decide ((1 / 10 : ℝ) < 1 / 100) = false
    rw [decide_eq_false_iff_not]
    norm_num
  have h := populated_mup_nan_or_bounded (exExtern Real.log Real.sqrt (fun x => Real.exp x - 1)
      (fun x => Real.log x / Real.log 10) (Real.log 10)) (exCall (1 / 100 : ℝ)) [1, 0] 0 (fun _ => rfl) hpop
  refine ⟨fun _ => rfl, hpop, ?_⟩
  rw [h.1, exCall_real_mupIEEE]

/-- Claim C5 as stated fails: on the small pedigree over the reals with
threshold `1/100`, a library whose genotype likelihoods are all `0` gives
`numerator = denominator = -inf`; `mup` is a NaN, `mup < min_prob_` is false,
the record is filled and the value written to `stats->mup` is a NaN, not a
number of `[0, 1]`. -/
theorem populated_record_holds_nan :
    ((exCall (1 / 100 : ℝ)).operatorIEEE (exExtern Real.log Real.sqrt (fun x => Real.exp x - 1)
      (fun x => Real.log x / Real.log 10) (Real.log 10)) [0, 0] 0 false).ret = true ∧
    ((exCall (1 / 100 : ℝ)).operatorIEEE (exExtern Real.log Real.sqrt (fun x => Real.exp x - 1)
      (fun x => Real.log x / Real.log 10) (Real.log 10)) [0, 0] 0 false).mup = some Dbl.nan ∧
    ¬ ∃ v : ℝ, ((exCall (1 / 100 : ℝ)).operatorIEEE (exExtern Real.log Real.sqrt (fun x => Real.exp x - 1)
      (fun x => Real.log x / Real.log 10) (Real.log 10)) [0, 0] 0 false).mup =
      some (Dbl.num v) ∧ 0 ≤ v ∧ v ≤ 1 := by
  have hnan := exCall_zero_depths_mupIEEE Real.log Real.sqrt (fun x => Real.exp x - 1)
    (fun x => Real.log x / Real.log 10) (Real.log 10) (1 / 100 : ℝ)
  have hlt : ((exCall (1 / 100 : ℝ)).mupIEEE (exExtern Real.log Real.sqrt (fun x => Real.exp x - 1)
      (fun x => Real.log x / Real.log 10) (Real.log 10)) [0, 0] 0).lt
      (Dbl.num (exCall (1 / 100 : ℝ)).min_prob_) = false := by
    rw [hnan]
    rfl
  have hmup := operatorIEEE_mup (exExtern Real.log Real.sqrt (fun x => Real.exp x - 1)
      (fun x => Real.log x / Real.log 10) (Real.log 10)) (exCall (1 / 100 : ℝ)) [0, 0] 0 hlt
  rw [hnan] at hmup
  refine ⟨(operatorIEEE_ret _ _ _ _ _).mpr hlt, hmup, ?_⟩
  rintro ⟨v, hv, _⟩
  rw [hmup] at hv
  cases hv

end ieee_claims

/-! ## The confidence score and the scores it is taken from -/

section dnq_lemmas
set_option linter.unusedSectionVars false
variable {α : Type} [LinearOrderedField α]

theorem list_eq_map_range_getD {β : Type} (l : List β) (d : β) :
    l = (List.range l.length).map (fun i => l.getD i d) := by
  apply List.ext_getElem
  · simp
  · intro i h1 h2
    simp [List.getD_eq_getElem?_getD, List.getElem?_eq_getElem h1]

/-- The sum of a matrix is the sum of its coefficients, row by row. -/
theorem matSum_eq_sum_coeff (A : TransitionMatrix α) :
    matSum A = ((List.range A.length).map (fun r =>
      ((List.range (A.getD r []).length).map (fun c => coeff A r c)).sum)).sum := by
  unfold matSum
  conv_lhs => rw [list_eq_map_range_getD A []]
  rw [List.map_map]
  congr 1
  apply List.map_congr_left
  intro r _
  show (A.getD r []).sum = _
  conv_lhs => rw [list_eq_map_range_getD (A.getD r []) 0]
  rfl

theorem foldl_max_eq_init {β : Type} (f : β → α) (l : List β) (m : α)
    (h : ∀ i ∈ l, f i ≤ m) : l.foldl (fun m i => max m (f i)) m = m := by
  induction l with
  | nil => rfl
  | cons k l ih =>
    rw [List.foldl_cons, max_eq_left (h k (List.mem_cons_self k l))]
    exact ih (fun i hi => h i (List.mem_cons_of_mem k hi))

end dnq_lemmas

section small_pedigree_mixed
set_option linter.unusedSectionVars false
variable {α : Type} [LinearOrderedField α] [FloorRing α]

theorem exCall_mixed_numerator (log sqrt expm1 log10 : α → α) (ln10 m : α) :
    ((exCall m).numeratorPeel (exExtern log sqrt expm1 log10 ln10) [9 / 500, 1 / 500] 0).ret =
      log (9 / 1000) ∧
    ((exCall m).denominatorPeel (exExtern log sqrt expm1 log10 ln10) [9 / 500, 1 / 500] 0).ret =
      log (1 / 100) := by
  constructor
  · simp [exCall, CallMutations.numeratorPeel, CallMutations.seeded, CallMutations.ctor,
      LogProbability.CreateMutationMatrices, exToy, exExtern, exBase, exGraph, exWork, exMatrices,
      PeelForwards, forRange, forRange.go, forwardStep, forwardRoot, rootSum, exUp, matVec,
      arrayMul, arraySum]
    norm_num
  · simp [exCall, CallMutations.numeratorPeel, CallMutations.denominatorPeel, CallMutations.seeded, CallMutations.ctor,
      LogProbability.CreateMutationMatrices, exToy, exExtern, exBase, exGraph, exWork, exMatrices,
      PeelForwards, forRange, forRange.go, forwardStep, forwardRoot, rootSum, exUp, matVec,
      arrayMul, arraySum]
    norm_num

theorem exCall_mixed_entries (log sqrt expm1 log10 : α → α) (ln10 m : α)
    (h1 : sqrt (1 / 100) = 1 / 10) (h2 : sqrt (9 / 100) = 3 / 10) :
    entries (scoreMatrix ((exCall m).scoringWork (exExtern log sqrt expm1 log10 ln10) [9 / 500, 1 / 500] 0)
      (exCall m).one_mutation_matrices_.full 1) =
      [(0, 0, 0), (3 / 100, 1, 0), (1 / 300, 0, 1), (0, 1, 1)] := by
  simp [entries, coeff, List.range_succ, exCall, CallMutations.ctor,
    LogProbability.CreateMutationMatrices, exMatrices, exToy, CallMutations.scoringWork,
    CallMutations.numeratorPeel, CallMutations.denominatorPeel, CallMutations.seeded, exExtern,
    exBase, exGraph, exWork, PeelForwards, PeelBackwards, forRange, forRange.go, forDown,
    forwardStep, forwardRoot, backwardRoot, backwardStep, rootSum, exUp, exDown, exTranspose,
    matVec, arrayMul, arraySum, arrayDiv, scoreMatrix, cwiseMul, outer]
  norm_num
  rw [h1]
  norm_num
  rw [h2]
  norm_num

theorem exCall_mixed_totalScore (log sqrt expm1 log10 : α → α) (ln10 m : α)
    (h1 : sqrt (1 / 100) = 1 / 10) (h2 : sqrt (9 / 100) = 3 / 10) :
    totalScore ((exCall m).scoringWork (exExtern log sqrt expm1 log10 ln10) [9 / 500, 1 / 500] 0)
      (exCall m).one_mutation_matrices_.full = 1 / 30 := by
  simp [exCall, totalScore, nodeScore, CallMutations.ctor, LogProbability.CreateMutationMatrices,
    exMatrices, exToy, CallMutations.scoringWork, CallMutations.numeratorPeel,
    CallMutations.denominatorPeel, CallMutations.seeded, exExtern, exBase, exGraph, exWork,
    PeelForwards, PeelBackwards, forRange, forRange.go, forDown, forwardStep, forwardRoot,
    backwardRoot, backwardStep, rootSum, exUp, exDown, exTranspose, matVec, arrayMul, arraySum,
    arrayDiv, resize, exStats, scoreMatrix, cwiseMul, outer, matSum]
  norm_num
  rw [h1]
  norm_num
  rw [h2]
  norm_num

theorem exCall_mixed_max_coeff (log sqrt expm1 log10 : α → α) (ln10 m : α) (v : List α)
    (h1 : sqrt (1 / 100) = 1 / 10) (h2 : sqrt (9 / 100) = 3 / 10) :
    (scoreLoop ((exCall m).scoringWork (exExtern log sqrt expm1 log10 ln10) [9 / 500, 1 / 500] 0)
      (exCall m).one_mutation_matrices_.full v).max_coeff = 3 / 100 := by
  rw [scoreLoop_max_coeff]
  have hw : ((exCall m).scoringWork (exExtern log sqrt expm1 log10 ln10) [9 / 500, 1 / 500] 0).founder_nodes = (0, 1) ∧
    ((exCall m).scoringWork (exExtern log sqrt expm1 log10 ln10) [9 / 500, 1 / 500] 0).num_nodes = 2 := by
    constructor <;> rfl
  rw [hw.1, hw.2]
  have he := exCall_mixed_entries log sqrt expm1 log10 ln10 m h1 h2
  simp only [List.range', Nat.reduceSub, List.foldl_cons, List.foldl_nil, maxCoeff, he, maxStep]
  norm_num

theorem exCallFounder_mutationProbability (log sqrt expm1 log10 : α → α) (ln10 m : α) :
    (exCallFounder m).mutationProbability (exExternFounder log sqrt expm1 log10 ln10) [] 0 =
      -expm1 0 := by
  simp [exCallFounder, exExternFounder, CallMutations.mutationProbability,
    CallMutations.numeratorPeel, CallMutations.denominatorPeel, CallMutations.seeded,
    CallMutations.ctor, LogProbability.CreateMutationMatrices, exExtern, exGraphFounder,
    exWorkFounder, PeelForwards, forRange, forRange.go, forwardStep, forwardRoot, rootSum,
    arrayMul, arraySum]

theorem exCallFounder_scoringWork (log sqrt expm1 log10 : α → α) (ln10 m : α) :
    ((exCallFounder m).scoringWork (exExternFounder log sqrt expm1 log10 ln10)
      [] 0).founder_nodes = (0, 1) ∧
    ((exCallFounder m).scoringWork (exExternFounder log sqrt expm1 log10 ln10)
      [] 0).num_nodes = 1 := by
  constructor <;> rfl

end small_pedigree_mixed

section dnq_claim_statement
variable {α D G : Type} [LinearOrderedField α] [FloorRing α]

/-- Claim C8, as amended.  When `operator()` fills the record, `dnq` is
`lphred (1 - max_coeff / total, 255)`, the rounded Phred scale
`-10 * log10 (1 - max_coeff / total)` clamped to `[0, 255]`, so an integer of
`[0, 255]`.  `total` is the sum of all coefficients of the score matrices of
the non-founder nodes, the coefficient at `(row, col)` of node `i` being
`super[i][row] * lower[i][col] * one[i](row, col)`.  No such coefficient
exceeds `max_coeff`.  When every one of these matrices has a coefficient,
`max_coeff` is the largest coefficient if one of them exceeds `-1`, and it is
still its initial value `-1` if none does. -/
theorem dnq_is_capped_phred (E : Extern α D) (self : CallMutations α G) (depths : D)
    (ref_index : Nat) (st : stats_t α)
    (hret : (self.operator E depths ref_index (some st)).ret = true) :
    ∃ st', (self.operator E depths ref_index (some st)).stats = some st' ∧
      st'.dnq = lphred E (1 - (scoreLoop (self.scoringWork E depths ref_index) self.one_mutation_matrices_.full st.node_mu1p).max_coeff /
        totalScore (self.scoringWork E depths ref_index) self.one_mutation_matrices_.full) 255 ∧
      st'.dnq = max 0 (min 255 (round (-10 * E.log10
        (1 - (scoreLoop (self.scoringWork E depths ref_index) self.one_mutation_matrices_.full st.node_mu1p).max_coeff / totalScore (self.scoringWork E depths ref_index) self.one_mutation_matrices_.full)))) ∧
      0 ≤ st'.dnq ∧ st'.dnq ≤ 255 ∧
      (scoreLoop (self.scoringWork E depths ref_index) self.one_mutation_matrices_.full st.node_mu1p).total = totalScore (self.scoringWork E depths ref_index) self.one_mutation_matrices_.full ∧
      totalScore (self.scoringWork E depths ref_index) self.one_mutation_matrices_.full =
        ((List.range' (self.scoringWork E depths ref_index).founder_nodes.2 ((self.scoringWork E depths ref_index).num_nodes - (self.scoringWork E depths ref_index).founder_nodes.2)).map
          (fun i => ((List.range (scoreMatrix (self.scoringWork E depths ref_index) self.one_mutation_matrices_.full i).length).map
            (fun r => ((List.range ((scoreMatrix (self.scoringWork E depths ref_index) self.one_mutation_matrices_.full i).getD r []).length).map
              (fun c => coeff (scoreMatrix (self.scoringWork E depths ref_index) self.one_mutation_matrices_.full i) r c)).sum)).sum)).sum ∧
      (∀ i r c, r < ((self.scoringWork E depths ref_index).super.getD i []).length → c < ((self.scoringWork E depths ref_index).lower.getD i []).length →
        r < (self.one_mutation_matrices_.full.getD i []).length → c < ((self.one_mutation_matrices_.full.getD i []).getD r []).length →
        coeff (scoreMatrix (self.scoringWork E depths ref_index) self.one_mutation_matrices_.full i) r c =
          ((self.scoringWork E depths ref_index).super.getD i []).getD r 0 * ((self.scoringWork E depths ref_index).lower.getD i []).getD c 0 *
            coeff (self.one_mutation_matrices_.full.getD i []) r c) ∧
      (∀ i, (self.scoringWork E depths ref_index).founder_nodes.2 ≤ i → i < (self.scoringWork E depths ref_index).num_nodes →
        ∀ e ∈ entries (scoreMatrix (self.scoringWork E depths ref_index) self.one_mutation_matrices_.full i),
          e.1 ≤ (scoreLoop (self.scoringWork E depths ref_index) self.one_mutation_matrices_.full st.node_mu1p).max_coeff) ∧
      ((∀ i, (self.scoringWork E depths ref_index).founder_nodes.2 ≤ i → i < (self.scoringWork E depths ref_index).num_nodes →
          entries (scoreMatrix (self.scoringWork E depths ref_index) self.one_mutation_matrices_.full i) ≠ []) →
        (∃ i, (self.scoringWork E depths ref_index).founder_nodes.2 ≤ i ∧ i < (self.scoringWork E depths ref_index).num_nodes ∧
          ∃ e ∈ entries (scoreMatrix (self.scoringWork E depths ref_index) self.one_mutation_matrices_.full i), -1 < e.1) →
        ∃ i, (self.scoringWork E depths ref_index).founder_nodes.2 ≤ i ∧ i < (self.scoringWork E depths ref_index).num_nodes ∧
          ∃ e ∈ entries (scoreMatrix (self.scoringWork E depths ref_index) self.one_mutation_matrices_.full i),
            e.1 = (scoreLoop (self.scoringWork E depths ref_index) self.one_mutation_matrices_.full st.node_mu1p).max_coeff) ∧
      ((∀ i, (self.scoringWork E depths ref_index).founder_nodes.2 ≤ i → i < (self.scoringWork E depths ref_index).num_nodes →
          entries (scoreMatrix (self.scoringWork E depths ref_index) self.one_mutation_matrices_.full i) ≠ []) →
        (∀ i, (self.scoringWork E depths ref_index).founder_nodes.2 ≤ i → i < (self.scoringWork E depths ref_index).num_nodes →
          ∀ e ∈ entries (scoreMatrix (self.scoringWork E depths ref_index) self.one_mutation_matrices_.full i), e.1 ≤ -1) →
        (scoreLoop (self.scoringWork E depths ref_index) self.one_mutation_matrices_.full st.node_mu1p).max_coeff = -1) := by
  have hd := populated_dnq E self depths ref_index st
  have hge := scoreLoop_entries_le (self.scoringWork E depths ref_index) self.one_mutation_matrices_.full st.node_mu1p
  have hrange : ∀ i, i ∈ List.range' (self.scoringWork E depths ref_index).founder_nodes.2
      ((self.scoringWork E depths ref_index).num_nodes - (self.scoringWork E depths ref_index).founder_nodes.2) →
      (self.scoringWork E depths ref_index).founder_nodes.2 ≤ i ∧ i < (self.scoringWork E depths ref_index).num_nodes := by
    intro i hi
    have := List.mem_range'_1.mp hi
    omega
  refine ⟨_, operator_stats_of_ret E self depths ref_index st hret, hd, hd, ?_, ?_,
    scoreLoop_total _ _ _, ?_, fun i r c => coeff_scoreMatrix (self.scoringWork E depths ref_index) self.one_mutation_matrices_.full i r c, hge, ?_, ?_⟩
  · rw [hd]
    exact (lphred_bounds E _ 255 (by norm_num)).1
  · rw [hd]
    exact (lphred_bounds E _ 255 (by norm_num)).2
  · unfold totalScore
    congr 1
    apply List.map_congr_left
    intro i _
    exact matSum_eq_sum_coeff _
  · intro hne ⟨i0, h1, h2, e0, he0, hgt⟩
    have hbig := lt_of_lt_of_le hgt (hge i0 h1 h2 e0 he0)
    rcases foldl_max_attained (fun i => (maxCoeff (scoreMatrix (self.scoringWork E depths ref_index) self.one_mutation_matrices_.full i)).1)
      (List.range' (self.scoringWork E depths ref_index).founder_nodes.2 ((self.scoringWork E depths ref_index).num_nodes - (self.scoringWork E depths ref_index).founder_nodes.2)) (-1)
      with h | ⟨i, hi, h⟩
    · rw [scoreLoop_max_coeff, h] at hbig
      exact absurd hbig (lt_irrefl _)
    · have hi2 := hrange i hi
      refine ⟨i, hi2.1, hi2.2, _, maxCoeff_mem _ (hne i hi2.1 hi2.2), ?_⟩
      rw [scoreLoop_max_coeff, h]
  · intro hne hle
    rw [scoreLoop_max_coeff]
    apply foldl_max_eq_init
    intro i hi
    have hi2 := hrange i hi
    exact hle i hi2.1 hi2.2 _ (maxCoeff_mem _ (hne i hi2.1 hi2.2))

end dnq_claim_statement

section dnq_examples

theorem real_log10_tenth : Real.log (1 / 10) / Real.log 10 = -1 := by
  have h10 : Real.log 10 ≠ 0 := ne_of_gt (Real.log_pos (by norm_num))
  rw [one_div, Real.log_inv]
  field_simp

theorem real_sqrt_hundredth : Real.sqrt (1 / 100) = 1 / 10 := by
  rw [show (1 / 100 : ℝ) = (1 / 10) ^ 2 by norm_num, Real.sqrt_sq (by norm_num)]

theorem real_sqrt_nine_hundredths : Real.sqrt (9 / 100) = 3 / 10 := by
  rw [show (9 / 100 : ℝ) = (3 / 10) ^ 2 by norm_num, Real.sqrt_sq (by norm_num)]

theorem real_one_sub_exp_mixed :
    (1 : ℝ) - Real.exp (Real.log (9 / 1000) - Real.log (1 / 100)) = 1 / 10 := by
  rw [Real.exp_sub, Real.exp_log (by norm_num), Real.exp_log (by norm_num)]
  norm_num

theorem exCall_mixed_ret :
    ((exCall (1 / 100 : ℝ)).operator (exExtern Real.log Real.sqrt (fun x => Real.exp x - 1)
      (fun x => Real.log x / Real.log 10) (Real.log 10)) [9 / 500, 1 / 500] 0 (some exStats)).ret = true := by
  have h := exCall_mixed_numerator Real.log Real.sqrt (fun x => Real.exp x - 1)
    (fun x => Real.log x / Real.log 10) (Real.log 10) (1 / 100 : ℝ)
  rw [operator_ret, CallMutations.mutationProbability, h.1, h.2]
  show (1 / 100 : ℝ) ≤ -(Real.exp (Real.log (9 / 1000) - Real.log (1 / 100)) - 1)
  have := real_one_sub_exp_mixed
  linarith

/-- Claim C8, on the small pedigree over the reals (threshold `1/100`, the
library reads the genotype likelihoods `9/500` and `1/500`): `mup = 1/10` and
the record is filled; the score matrix of the library has the coefficients
`0, 3/100, 1/300, 0`, so `total = 1/30`, `max_coeff = 3/100`,
`1 - max_coeff / total = 1/10` and `dnq = 10`. -/
theorem dnq_is_capped_phred_witness :
    ((exCall (1 / 100 : ℝ)).operator (exExtern Real.log Real.sqrt (fun x => Real.exp x - 1)
      (fun x => Real.log x / Real.log 10) (Real.log 10)) [9 / 500, 1 / 500] 0 (some exStats)).ret = true ∧
    entries (scoreMatrix ((exCall (1 / 100 : ℝ)).scoringWork (exExtern Real.log Real.sqrt (fun x => Real.exp x - 1)
      (fun x => Real.log x / Real.log 10) (Real.log 10)) [9 / 500, 1 / 500] 0)
      (exCall (1 / 100 : ℝ)).one_mutation_matrices_.full 1) =
        [(0, 0, 0), (3 / 100, 1, 0), (1 / 300, 0, 1), (0, 1, 1)] ∧
    totalScore ((exCall (1 / 100 : ℝ)).scoringWork (exExtern Real.log Real.sqrt (fun x => Real.exp x - 1)
      (fun x => Real.log x / Real.log 10) (Real.log 10)) [9 / 500, 1 / 500] 0)
      (exCall (1 / 100 : ℝ)).one_mutation_matrices_.full = 1 / 30 ∧
    (scoreLoop ((exCall (1 / 100 : ℝ)).scoringWork (exExtern Real.log Real.sqrt (fun x => Real.exp x - 1)
      (fun x => Real.log x / Real.log 10) (Real.log 10)) [9 / 500, 1 / 500] 0)
      (exCall (1 / 100 : ℝ)).one_mutation_matrices_.full exStats.node_mu1p).max_coeff =
        3 / 100 ∧
    ∃ st', ((exCall (1 / 100 : ℝ)).operator (exExtern Real.log Real.sqrt (fun x => Real.exp x - 1)
      (fun x => Real.log x / Real.log 10) (Real.log 10)) [9 / 500, 1 / 500] 0 (some exStats)).stats =
        some st' ∧ st'.dnq = 10 := by
  have he := exCall_mixed_entries Real.log Real.sqrt (fun x => Real.exp x - 1)
    (fun x => Real.log x / Real.log 10) (Real.log 10) (1 / 100 : ℝ)
    real_sqrt_hundredth real_sqrt_nine_hundredths
  have ht := exCall_mixed_totalScore Real.log Real.sqrt (fun x => Real.exp x - 1)
    (fun x => Real.log x / Real.log 10) (Real.log 10) (1 / 100 : ℝ)
    real_sqrt_hundredth real_sqrt_nine_hundredths
  have hm := exCall_mixed_max_coeff Real.log Real.sqrt (fun x => Real.exp x - 1)
    (fun x => Real.log x / Real.log 10) (Real.log 10) (1 / 100 : ℝ) exStats.node_mu1p
    real_sqrt_hundredth real_sqrt_nine_hundredths
  obtain ⟨st', h1, _, h3, _⟩ :=
    dnq_is_capped_phred (exExtern Real.log Real.sqrt (fun x => Real.exp x - 1)
      (fun x => Real.log x / Real.log 10) (Real.log 10)) (exCall (1 / 100 : ℝ)) [9 / 500, 1 / 500] 0 exStats
      exCall_mixed_ret
  refine ⟨exCall_mixed_ret, he, ht, hm, st', h1, ?_⟩
  rw [h3, hm, ht]
  have hp : (1 : ℝ) - 3 / 100 / (1 / 30) = 1 / 10 := by norm_num
  rw [hp]
  show max 0 (min 255 (round (-10 * (Real.log (1 / 10) / Real.log 10)))) = (10 : ℤ)
  rw [real_log10_tenth]
  have hr : round (-10 * (-1 : ℝ)) = (10 : ℤ) := by
    have h10 : (-10 * (-1 : ℝ)) = ((10 : ℤ) : ℝ) := by norm_num
    rw [h10, round_intCast]
  rw [hr]
  decide

/-- Claim C8 as stated fails: on a pedigree of one founder without a library,
over the reals with threshold `0`, both forward results are `log 1`, `mup = 0`
and the record is filled.  There is no non-founder node, so the scoring loop
does not run: `max_coeff` is still its initial value `-1`, which is the
coefficient of no score matrix. -/
theorem max_coeff_without_non_founder :
    ((exCallFounder (0 : ℝ)).operator (exExternFounder Real.log Real.sqrt (fun x => Real.exp x - 1)
      (fun x => Real.log x / Real.log 10) (Real.log 10)) [] 0 (some exStats)).ret = true ∧
    (∃ st', ((exCallFounder (0 : ℝ)).operator (exExternFounder Real.log Real.sqrt (fun x => Real.exp x - 1)
      (fun x => Real.log x / Real.log 10) (Real.log 10)) [] 0 (some exStats)).stats = some st') ∧
    (scoreLoop ((exCallFounder (0 : ℝ)).scoringWork (exExternFounder Real.log Real.sqrt (fun x => Real.exp x - 1)
      (fun x => Real.log x / Real.log 10) (Real.log 10)) [] 0)
      (exCallFounder (0 : ℝ)).one_mutation_matrices_.full exStats.node_mu1p).max_coeff = -1 ∧
    ¬ ∃ i, ((exCallFounder (0 : ℝ)).scoringWork (exExternFounder Real.log Real.sqrt (fun x => Real.exp x - 1)
      (fun x => Real.log x / Real.log 10) (Real.log 10)) [] 0).founder_nodes.2 ≤ i ∧
      i < ((exCallFounder (0 : ℝ)).scoringWork (exExternFounder Real.log Real.sqrt (fun x => Real.exp x - 1)
      (fun x => Real.log x / Real.log 10) (Real.log 10)) [] 0).num_nodes ∧
      ∃ e ∈ entries (scoreMatrix ((exCallFounder (0 : ℝ)).scoringWork (exExternFounder Real.log Real.sqrt (fun x => Real.exp x - 1)
      (fun x => Real.log x / Real.log 10) (Real.log 10)) [] 0)
        (exCallFounder (0 : ℝ)).one_mutation_matrices_.full i),
        e.1 = (scoreLoop ((exCallFounder (0 : ℝ)).scoringWork (exExternFounder Real.log Real.sqrt (fun x => Real.exp x - 1)
      (fun x => Real.log x / Real.log 10) (Real.log 10)) [] 0)
          (exCallFounder (0 : ℝ)).one_mutation_matrices_.full exStats.node_mu1p).max_coeff := by
  have hw := exCallFounder_scoringWork Real.log Real.sqrt (fun x => Real.exp x - 1)
    (fun x => Real.log x / Real.log 10) (Real.log 10) (0 : ℝ)
  have hret : ((exCallFounder (0 : ℝ)).operator (exExternFounder Real.log Real.sqrt (fun x => Real.exp x - 1)
      (fun x => Real.log x / Real.log 10) (Real.log 10)) [] 0 (some exStats)).ret = true := by
    rw [operator_ret, exCallFounder_mutationProbability]
    show (0 : ℝ) ≤ -(Real.exp 0 - 1)
    simp
  refine ⟨hret, ⟨_, operator_stats_of_ret _ _ _ _ _ hret⟩, ?_, ?_⟩
  · rw [scoreLoop_max_coeff, hw.1, hw.2]
    rfl
  · rintro ⟨i, h1, h2, _⟩
    rw [hw.1] at h1
    rw [hw.2] at h2
    omega

end dnq_examples

end dng
